import Mathlib

/-!
Verification development for the travelpygame repository.

The definitions below are shallow embeddings of the Python source files
(`src/travelpygame/...`), translated function by function:

* floats are modelled as exact rationals; where the source can produce the
  IEEE special values NaN/inf (numpy division), we use the `PFloat` type
  with explicit `nan`/`inf`/`ninf` constructors and numpy's propagation
  rules;
* pandas `Series` of length `n` are modelled as vectors `Fin n → _`;
* Python `dict`s are modelled as association lists with
  replace-in-place-or-append update, matching insertion-order semantics;
* fallible code (Python exceptions) returns `Except String _`.
-/

set_option maxHeartbeats 1000000
set_option maxRecDepth 4000

/-- A Python/numpy floating-point value, modelled exactly: either an ordinary
(real) value, represented by a rational, or one of the special values
NaN / +inf / -inf produced by numpy arithmetic. -/
inductive PFloat where
  | val (q : ℚ)
  | nan
  | inf
  | ninf
deriving DecidableEq

namespace PFloat

/-- numpy addition: NaN propagates, inf + finite = inf. (inf + -inf = NaN;
that combination is unreachable in this development but is modelled anyway.) -/
def add : PFloat → PFloat → PFloat
  | val a, val b => val (a + b)
  | nan, _ => nan
  | _, nan => nan
  | inf, ninf => nan
  | ninf, inf => nan
  | inf, _ => inf
  | _, inf => inf
  | ninf, _ => ninf
  | _, ninf => ninf

/-- Add a finite constant (used for bonus amounts, which are plain floats). -/
def addC (c : ℚ) : PFloat → PFloat
  | val a => val (a + c)
  | nan => nan
  | inf => inf
  | ninf => ninf

/-- numpy multiplication by a finite scalar: `c * NaN = NaN`,
`c * inf = ±inf` for `c ≠ 0` and NaN for `c = 0`. -/
def smul (c : ℚ) : PFloat → PFloat
  | val a => val (c * a)
  | nan => nan
  | inf => if c = 0 then nan else if 0 < c then inf else ninf
  | ninf => if c = 0 then nan else if 0 < c then ninf else inf

/-- numpy division by a positive finite scalar. -/
def divC (c : ℚ) : PFloat → PFloat
  | val a => val (a / c)
  | nan => nan
  | inf => inf
  | ninf => ninf

/-- numpy division of finite values: `0/0 = NaN`, `a/0 = ±inf` for `a ≠ 0`. -/
def fdiv (a b : ℚ) : PFloat :=
  if b = 0 then
    if a = 0 then nan else if 0 < a then inf else ninf
  else val (a / b)

def isNan : PFloat → Bool
  | nan => true
  | _ => false

/-- numpy strict comparison: any comparison involving NaN is false;
`-inf < val q < inf`. -/
def ltB : PFloat → PFloat → Bool
  | val a, val b => a < b
  | nan, _ => false
  | _, nan => false
  | inf, _ => false
  | _, inf => true
  | ninf, ninf => false
  | ninf, _ => true
  | _, ninf => false

/-- numpy `clip(0)` (lower bound 0): NaN and ±inf pass through unchanged
except that `-inf` is clipped to the bound. -/
def clip0 : PFloat → PFloat
  | val a => val (max a 0)
  | nan => nan
  | inf => inf
  | ninf => val 0

end PFloat

/-- Round half to even on the integers (the rounding used by numpy / pandas
`Series.round`). -/
def roundHalfEven (q : ℚ) : ℤ :=
  if q - ⌊q⌋ < 1/2 then ⌊q⌋
  else if 1/2 < q - ⌊q⌋ then ⌊q⌋ + 1
  else if Even ⌊q⌋ then ⌊q⌋ else ⌊q⌋ + 1

/-- `numpy.round(x, k)`: round `x * 10^k` half-to-even, then divide back. -/
def roundToPlaces (k : ℤ) (q : ℚ) : ℚ :=
  (roundHalfEven (q * (10 : ℚ) ^ k) : ℚ) / (10 : ℚ) ^ k

/-- `Series.round` on a possibly-special float: NaN and ±inf round to
themselves. -/
def PFloat.roundTo (k : ℤ) : PFloat → PFloat
  | val a => val (roundToPlaces k a)
  | nan => nan
  | inf => inf
  | ninf => ninf

/-- `ScoringOptions` from `src/travelpygame/scoring.py` (dataclass).
`rank_bonuses` (a Python `dict[int, float]`) is an association list with
distinct keys. -/
structure ScoringOptions where
  fivek_flat_score : Option ℚ
  fivek_bonus : Option ℚ
  rank_bonuses : Option (List (ℤ × ℚ))
  antipode_5k_flat_score : Option ℚ
  world_distance_km : ℚ := 20000
  round_to : Option ℤ := some 2
  distance_divisor : Option ℚ := none
  clip_negative : Bool := true
  average_distance_and_rank : Bool := true
deriving DecidableEq

/-- `main_tpg_scoring` from `src/travelpygame/scoring.py`
(`distance_divisor = 4.003006`). -/
def main_tpg_scoring : ScoringOptions :=
  { fivek_flat_score := none
    fivek_bonus := some 2000
    rank_bonuses := some [(1, 3000), (2, 2000), (3, 1000)]
    antipode_5k_flat_score := some 10000
    distance_divisor := some (4003006 / 1000000)
    average_distance_and_rank := false }

namespace Scoring

variable {n : ℕ}

/-- The raw distance component of `score_distances` (scoring.py lines 59-65).
Python's `if options.distance_divisor:` is a truthiness test, false for both
`None` and `0.0`, hence the explicit `dv = 0` case falling back to the
else-branch formula. -/
def distanceScoreRaw (o : ScoringOptions) (d : ℚ) : ℚ :=
  match o.distance_divisor with
  | some dv =>
      if dv = 0 then (o.world_distance_km * 1000 - d) / 1000
      else o.world_distance_km / 4 - d / 1000 / dv
  | none => (o.world_distance_km * 1000 - d) / 1000

/-- Distance component after the optional `clip(0)` (scoring.py lines 66-67). -/
def distanceScore (o : ScoringOptions) (d : ℚ) : ℚ :=
  if o.clip_negative then max (distanceScoreRaw o d) 0 else distanceScoreRaw o d

/-- `distances.rank(method='max', ascending=True)` at index `i`: the number of
entries `≤` the entry at `i` (tied entries all get the highest shared rank). -/
def rankMax (d : Fin n → ℚ) (i : Fin n) : ℕ :=
  (Finset.univ.filter fun j => d j ≤ d i).card

/-- `players_beaten = n - distances.rank(method='max', ascending=True)`
(scoring.py line 69). -/
def playersBeaten (d : Fin n → ℚ) (i : Fin n) : ℚ :=
  (n : ℚ) - (rankMax d i : ℚ)

/-- `players_beaten_scores = 5000 * (players_beaten / (n - 1))`
(scoring.py line 70). For `n = 1` this is numpy's `0.0 / 0`, i.e. NaN. -/
def playersBeatenScore (d : Fin n → ℚ) (i : Fin n) : PFloat :=
  PFloat.smul 5000 (PFloat.fdiv (playersBeaten d i) ((n : ℚ) - 1))

/-- `scores = distance_scores + players_beaten_scores`, then `scores /= 2`
when `average_distance_and_rank` (scoring.py lines 72-74). -/
def combinedScore (o : ScoringOptions) (d : Fin n → ℚ) (i : Fin n) : PFloat :=
  let s := PFloat.add (.val (distanceScore o (d i))) (playersBeatenScore d i)
  if o.average_distance_and_rank then s.divC 2 else s

/-- `scores.rank(method='dense', ascending=False)` at index `i`: 1 plus the
number of distinct non-NaN values strictly greater; NaN entries get NaN rank
(modelled as `none`). -/
def denseRankDesc (s : Fin n → PFloat) (i : Fin n) : Option ℤ :=
  if (s i).isNan then none
  else some (1 + ((Finset.univ.image s).filter fun v => (s i).ltB v).card)

/-- The `for rank, bonus in options.rank_bonuses.items()` loop
(scoring.py lines 76-79); `ranks` is computed once, before the loop. -/
def applyRankBonuses (rbs : List (ℤ × ℚ)) (ranks : Fin n → Option ℤ)
    (s : Fin n → PFloat) : Fin n → PFloat :=
  rbs.foldl (fun sc kb => fun i =>
    if ranks i = some kb.1 then (sc i).addC kb.2 else sc i) s

/-- The rank-bonus stage: skipped when `options.rank_bonuses` is falsy
(None or the empty dict; for the empty dict the fold is the identity). -/
def rankBonusStage (o : ScoringOptions) (s : Fin n → PFloat) : Fin n → PFloat :=
  match o.rank_bonuses with
  | none => s
  | some rbs => applyRankBonuses rbs (denseRankDesc s) s

/-- The 5K / antipode-5K override stage (scoring.py lines 81-86):
`scores[is_5k] = flat` / `scores[is_5k] += bonus` (elif), then
`scores[is_antipode_5k] = antipode_flat`. -/
def fivekStage (o : ScoringOptions) (is_5k is_antipode_5k : Fin n → Bool)
    (s : Fin n → PFloat) : Fin n → PFloat :=
  let s1 : Fin n → PFloat :=
    match o.fivek_flat_score with
    | some f => fun i => if is_5k i then .val f else s i
    | none =>
        match o.fivek_bonus with
        | some b => fun i => if is_5k i then (s i).addC b else s i
        | none => s
  match o.antipode_5k_flat_score with
  | some f => fun i => if is_antipode_5k i then .val f else s1 i
  | none => s1

/-- `score_distances` from `src/travelpygame/scoring.py` (lines 51-87),
operating on a whole round's distance vector at once. -/
def score_distances (distances : Fin n → ℚ) (is_5k is_antipode_5k : Fin n → Bool)
    (options : ScoringOptions) : Fin n → PFloat :=
  let scores := combinedScore options distances
  let scores := rankBonusStage options scores
  let scores := fivekStage options is_5k is_antipode_5k scores
  match options.round_to with
  | none => scores
  | some k => fun i => (scores i).roundTo k

end Scoring

namespace Scoring

variable {n : ℕ}

/-! ### Pure rational mirror of `score_distances`

For `n ≥ 2` every value flowing through `score_distances` is an ordinary
(finite) float, so the whole pipeline can be mirrored in plain rationals.
The lemmas in the theorem section prove that, for `n ≥ 2` and with no 5K /
antipode mask set, `score_distances` agrees with this mirror. -/

/-- Rational version of `playersBeatenScore`, valid when `n ≥ 2`. -/
def playersBeatenScoreQ (d : Fin n → ℚ) (i : Fin n) : ℚ :=
  5000 * (playersBeaten d i / ((n : ℚ) - 1))

/-- Rational version of `combinedScore`, valid when `n ≥ 2`. -/
def combinedScoreQ (o : ScoringOptions) (d : Fin n → ℚ) (i : Fin n) : ℚ :=
  if o.average_distance_and_rank then
    (distanceScore o (d i) + playersBeatenScoreQ d i) / 2
  else distanceScore o (d i) + playersBeatenScoreQ d i

/-- Rational version of the dense descending rank (for an all-finite vector). -/
def denseRankDescQ (s : Fin n → ℚ) (i : Fin n) : ℤ :=
  1 + ((Finset.univ.image s).filter fun v => s i < v).card

/-- Total bonus a `dict[int, float]` of rank bonuses assigns to rank `r`
(the sum of the values at key `r`; keys are distinct in a dict, so at most
one term is non-zero). -/
def bonusAt (rbs : List (ℤ × ℚ)) (r : ℤ) : ℚ :=
  (rbs.filter fun kb => kb.1 = r).foldr (fun kb acc => kb.2 + acc) 0

/-- Rational version of the `score_distances` pipeline before rounding,
with no 5K or antipode-5K mask set, valid when `n ≥ 2`. -/
def scoreQpre (o : ScoringOptions) (d : Fin n → ℚ) (i : Fin n) : ℚ :=
  match o.rank_bonuses with
  | none => combinedScoreQ o d i
  | some rbs =>
      combinedScoreQ o d i + bonusAt rbs (denseRankDescQ (combinedScoreQ o d) i)

/-- Rational version of the full `score_distances` pipeline with no 5K or
antipode-5K mask set, valid when `n ≥ 2`. -/
def scoreQ (o : ScoringOptions) (d : Fin n → ℚ) (i : Fin n) : ℚ :=
  match o.round_to with
  | none => scoreQpre o d i
  | some k => roundToPlaces k (scoreQpre o d i)

/-- The combined score as a function of a submission's distance *value*
(given the whole distance vector `d`): `combinedScoreQ o d j` depends on `j`
only through `d j`, by `combinedScoreQ_eq_valueScore`. -/
def valueScore (o : ScoringOptions) (d : Fin n → ℚ) (x : ℚ) : ℚ :=
  if o.average_distance_and_rank then
    (distanceScore o x +
      5000 * (((Finset.univ.filter fun m => x < d m).card : ℚ) / ((n : ℚ) - 1))) / 2
  else distanceScore o x +
    5000 * (((Finset.univ.filter fun m => x < d m).card : ℚ) / ((n : ℚ) - 1))

/-- Number of distinct distance values strictly below the value at `i`. -/
def distBelow (d : Fin n → ℚ) (i : Fin n) : ℕ :=
  ((Finset.univ.image d).filter fun v => v < d i).card

end Scoring

/-! ### Round / Submission data model (`src/travelpygame/tpg_data/classes.py`) -/

/-- `Submission` (pydantic model). Field order and defaults follow the
source; `extra='allow'` provenance fields are not part of the scoring
contract and are not modelled. -/
structure Submission where
  name : String
  latitude : ℚ
  longitude : ℚ
  description : Option String := none
  is_5k : Option Bool := none
  is_antipode_5k : Option Bool := none
  is_tie : Bool := false
  score : Option ℚ := none
  rank : Option ℤ := none
  distance : Option ℚ := none
deriving DecidableEq

/-- `TPGType` (StrEnum with single member `normal`). -/
inductive TPGType where
  | normal
deriving DecidableEq

/-- `Round` (pydantic model, flattening the `RoundInfo` base class).
`name : str | None` has *no default* in the source, so it is a required
field that may hold null — this matters for JSON round-tripping. -/
structure Round where
  name : Option String
  type : TPGType := .normal
  number : ℤ
  season : Option ℤ := none
  country_code : Option String := none
  latitude : ℚ
  longitude : ℚ
  submissions : List Submission
deriving DecidableEq

/-- `Round.is_scored`: true iff every submission has a non-null score. -/
def Round.is_scored (r : Round) : Bool :=
  r.submissions.all fun s => s.score.isSome

/-- `Round.find_player`: first submission with the given name, or None. -/
def Round.find_player (r : Round) (name : String) : Option Submission :=
  r.submissions.find? fun s => s.name = name

/-! ### Distance Engine dispatch (`src/travelpygame/util/distance.py`)

The actual haversine/geodesic formulas live in numpy/pyproj and involve
transcendental functions; the claims are about which of the two metrics each
code path dispatches to, so the two metric functions are taken as parameters
of type `Metric`: a function of `(lat1, lng1, lat2, lng2)` returning metres,
exactly the call signature shared by `haversine_distance` and the geodesic
wrappers in the source. -/

/-- A distance function `(lat1, lng1, lat2, lng2) ↦ metres`. -/
abbrev Metric := ℚ → ℚ → ℚ → ℚ → ℚ

/-- `get_distances(target_point, points, use_haversine=...)` from
`src/travelpygame/util/distance.py` lines 129-157.  `points` is a sequence
of `(lng, lat)` pairs (the coordinate order produced by
`shapely.get_coordinates` / the numpy fast path); `target` is `(lat, lng)`.
The source line 149 reads
`dist_func = geod_distances if use_haversine else haversine_distance`,
so the flag dispatches to the *geodesic* metric when true. -/
def get_distances (haversine_distance geod_distances : Metric)
    (target : ℚ × ℚ) (points : List (ℚ × ℚ)) (use_haversine : Bool) : List ℚ :=
  let dist_func := if use_haversine then geod_distances else haversine_distance
  points.map fun p => dist_func target.1 target.2 p.2 p.1

/-- The metric `score_round` uses for a round's distances
(`src/travelpygame/scoring.py` lines 109-113): haversine when
`use_haversine` is true, geodesic otherwise. -/
def score_round_distances (haversine_distance geod_distances : Metric)
    (target : ℚ × ℚ) (points : List (ℚ × ℚ)) (use_haversine : Bool) : List ℚ :=
  if use_haversine then points.map fun p => haversine_distance target.1 target.2 p.2 p.1
  else points.map fun p => geod_distances target.1 target.2 p.2 p.1

/-- The default value of the `use_haversine` keyword of
`find_next_highest_placing` / `find_all_next_highest_placings`
(`src/travelpygame/submission_comparison.py` lines 71, 108). -/
def comparison_default_use_haversine : Bool := true

/-! ### `get_best_pic` (`src/travelpygame/best_pics.py`) and the call to it
from `Simulation._choose_pic` (`src/travelpygame/simulation.py`). -/

/-- `_get_best_pic_inner`: index and distance of the generator minimum
(`min(generator, key=itemgetter(1))` keeps the first of tied minima). -/
def get_best_pic_inner (dist_func : Metric) (target : ℚ × ℚ) :
    List (ℚ × ℚ) → Option (ℕ × ℚ)
  | [] => none
  | p :: ps =>
      let d0 := dist_func p.2 p.1 target.1 target.2
      match get_best_pic_inner dist_func target ps with
      | none => some (0, d0)
      | some (j, dj) => if d0 ≤ dj then some (0, d0) else some (j + 1, dj)

/-- The keyword-only parameters accepted by `get_best_pic`
(`src/travelpygame/best_pics.py` line 62: `*, use_haversine: bool = False`). -/
def get_best_pic_keyword_params : List String := ["use_haversine"]

/-- The keyword arguments `Simulation._choose_pic` passes to `get_best_pic`
(`src/travelpygame/simulation.py` lines 58-63). -/
def choose_pic_call_keywords : List String := ["use_haversine", "reverse"]

/-- Python call binding for keyword arguments: the call binds iff every
keyword names an accepted parameter; otherwise the callee raises
`TypeError: got an unexpected keyword argument` before its body runs. -/
def pythonKwargsBind (params kwargs : List String) : Bool :=
  kwargs.all fun k => params.contains k

/-! ### `bisect.bisect` (CPython `bisect_right`), used by
`find_new_next_highest_distance`. -/

/-- The CPython `bisect_right` loop:
`while lo < hi: mid = (lo+hi)//2; if x < a[mid]: hi = mid else: lo = mid+1`. -/
def bisectGo (a : List ℚ) (x : ℚ) (lo hi : ℕ) : ℕ :=
  if h : lo < hi then
    let mid := (lo + hi) / 2
    if x < a[mid]! then bisectGo a x lo mid else bisectGo a x (mid + 1) hi
  else lo
termination_by hi - lo
decreasing_by
  · omega
  · omega

/-- `bisect.bisect(a, x)` (insertion point to the right of equal entries). -/
def bisect (a : List ℚ) (x : ℚ) : ℕ :=
  bisectGo a x 0 a.length

/-! ### Stable sorting (Python `sorted`) -/

/-- Insert `x` into `l` before the first element `y` with `lt x y`; combined
with `insertionSort` this is a stable sort, like Python's `sorted`. -/
def insertSorted (lt : α → α → Bool) (x : α) : List α → List α
  | [] => [x]
  | y :: ys => if lt x y then x :: y :: ys else y :: insertSorted lt x ys

/-- Stable insertion sort modelling Python's `sorted(l, key=...)`. -/
def insertionSort (lt : α → α → Bool) (l : List α) : List α :=
  l.foldl (fun acc x => insertSorted lt x acc) []

/-- Comparison on optional floats used when Python sorts by a possibly-None
key. Python raises `TypeError` when it actually compares `None`; every call
below is guarded by hypotheses making all keys non-None, where this agrees
with the float order. -/
def optLt (a b : Option ℚ) : Bool :=
  match a, b with
  | some x, some y => x < y
  | _, _ => false

/-- `sorted(submissions, key=attrgetter('distance'))`. -/
def sortByDistance (subs : List Submission) : List Submission :=
  insertionSort (fun a b => optLt a.distance b.distance) subs

/-- `sorted(submissions, key=attrgetter('score'), reverse=True)`.
Python's `reverse=True` keeps equal keys in original order, i.e. it is the
stable sort by the reversed strict comparison. -/
def sortByScoreDesc (subs : List Submission) : List Submission :=
  insertionSort (fun a b => optLt b.score a.score) subs

/-- `Round.target` property: `Point(longitude, latitude)`, i.e. `(x, y)` =
`(lng, lat)`. -/
def Round.target (r : Round) : ℚ × ℚ := (r.longitude, r.latitude)

/-- `Submission.point` property: `Point(longitude, latitude)`. -/
def Submission.point (s : Submission) : ℚ × ℚ := (s.longitude, s.latitude)

/-! ### Submission Comparison (`src/travelpygame/submission_comparison.py`) -/

/-- `SubmissionDifference` (dataclass, lines 25-57). -/
structure SubmissionDifference where
  round_name : Option String
  target : ℚ × ℚ
  round_num_players : ℕ
  player : String
  player_pic : ℚ × ℚ
  player_pic_description : Option String
  player_score : Option ℚ
  player_distance : ℚ
  player_placing : ℤ
  rival : String
  rival_pic : ℚ × ℚ
  rival_pic_description : Option String
  rival_score : Option ℚ
  rival_distance : ℚ
deriving DecidableEq

/-- `SubmissionDifference.score_diff` (lines 59-63): rival minus player,
None when either score is None. -/
def SubmissionDifference.score_diff (d : SubmissionDifference) : Option ℚ :=
  match d.player_score, d.rival_score with
  | some p, some r => some (r - p)
  | _, _ => none

/-- `SubmissionDifference.distance_diff` (lines 65-67):
`player_distance - rival_distance`. -/
def SubmissionDifference.distance_diff (d : SubmissionDifference) : ℚ :=
  d.player_distance - d.rival_distance

/-- Python list indexing: non-negative indices within range, negative
indices wrap once, anything else raises IndexError. -/
def pyGet (l : List α) (i : ℤ) : Except String α :=
  if h : 0 ≤ i ∧ i < l.length then
    .ok (l.get ⟨i.toNat, by omega⟩)
  else if h2 : -(l.length : ℤ) ≤ i ∧ i < 0 then
    .ok (l.get ⟨(i + l.length).toNat, by omega⟩)
  else .error "IndexError: list index out of range"

/-- The tail of `find_next_highest_placing` (lines 124-146): locate the
submission in the sorted list (`list.index` raises ValueError when absent),
return None at index 0 ("You won!"), otherwise build the difference against
the predecessor; the `assert ... is not None` statements on the two
distances raise AssertionError when violated. -/
def findNextHighestBuild (round_ : Round) (sorted_subs : List Submission)
    (submission : Submission) : Except String (Option SubmissionDifference) :=
  if submission ∈ sorted_subs then
    let index := sorted_subs.indexOf submission
    if index = 0 then .ok none
    else
      let next_highest := sorted_subs.getD (index - 1) submission
      match submission.distance, next_highest.distance with
      | some pd, some rd =>
          .ok (some
            { round_name := round_.name
              target := round_.target
              round_num_players := sorted_subs.length
              player := submission.name
              player_pic := submission.point
              player_pic_description := submission.description
              player_score := submission.score
              player_distance := pd
              player_placing := (index : ℤ) + 1
              rival := next_highest.name
              rival_pic := next_highest.point
              rival_pic_description := next_highest.description
              rival_score := next_highest.score
              rival_distance := rd })
      | _, _ => .error "AssertionError: distance is None"
  else .error "ValueError: submission is not in list"

/-- `find_next_highest_placing` (lines 107-146). In the unscored branch the
source recomputes every distance with `get_distances` and mutates the
submissions in place before sorting; with value semantics the updated list
replaces the round's, and `submission` (an element of the round, referenced
by object identity in Python) is replaced by its updated copy at its first
occurrence. -/
def find_next_highest_placing (hav geod : Metric) (round_ : Round)
    (submission : Submission) (by_score use_haversine : Bool) :
    Except String (Option SubmissionDifference) :=
  if ¬ round_.is_scored then
    if by_score then .error "ValueError: Round is not scored, so you will want to do that yourself"
    else
      let pts := round_.submissions.map fun s => (s.longitude, s.latitude)
      let a := get_distances hav geod (round_.latitude, round_.longitude) pts use_haversine
      let subs := (round_.submissions.zip a).map fun sa =>
        { sa.1 with distance := some sa.2 }
      let submission := subs.getD (round_.submissions.indexOf submission) submission
      findNextHighestBuild round_ (sortByDistance subs) submission
  else
    let sorted_subs :=
      if by_score then sortByScoreDesc round_.submissions
      else sortByDistance round_.submissions
    findNextHighestBuild round_ sorted_subs submission

/-- `find_new_next_highest_distance` (lines 181-223). The unscored branch
sorts the (unmutated) submissions by freshly computed distances; `distances`
is taken from the submissions in their *original* order, skipping None.
When `new_distance` is None and `use_haversine` is false the source calls
`geod_distance((lat, lng), new_point)` passing a tuple where a shapely
Point is required, so attribute access `.y` raises AttributeError. -/
def find_new_next_highest_distance (hav geod : Metric) (round_ : Round)
    (name : String) (new_point : ℚ × ℚ) (new_distance : Option ℚ)
    (new_rank : Option ℤ) (new_pic_desc : Option String) (use_haversine : Bool) :
    Except String (Option SubmissionDifference) := do
  let sorted_subs :=
    if ¬ round_.is_scored then
      let pts := round_.submissions.map fun s => (s.longitude, s.latitude)
      let a := get_distances hav geod (round_.latitude, round_.longitude) pts use_haversine
      (insertionSort (fun x y => x.2 < y.2) (round_.submissions.zip a)).map Prod.fst
    else sortByDistance round_.submissions
  let distances := round_.submissions.filterMap fun s => s.distance
  let new_distance ←
    match new_distance with
    | some nd => pure nd
    | none =>
        if use_haversine then
          pure (hav round_.latitude round_.longitude new_point.2 new_point.1)
        else .error "AttributeError: tuple object has no attribute y"
  let new_rank : ℤ :=
    match new_rank with
    | some r => r
    | none => (bisect distances new_distance : ℤ) + 1
  if new_rank = 1 then return none
  else
    let new_rival ← pyGet sorted_subs (new_rank - 2)
    match new_rival.distance with
    | some rd =>
        return some
          { round_name := round_.name
            target := round_.target
            round_num_players := sorted_subs.length
            player := name
            player_pic := new_point
            player_pic_description := new_pic_desc
            player_score := none
            player_distance := new_distance
            player_placing := new_rank
            rival := new_rival.name
            rival_pic := new_rival.point
            rival_pic_description := new_rival.description
            rival_score := new_rival.score
            rival_distance := rd }
    | none => .error "AssertionError: new_rival.distance is None"

/-! ### Leaderboard Aggregator (`src/travelpygame/scoring.py` lines 138-207)

Python `dict`s are modelled as association lists: updating an existing key
replaces its value in place, a new key is appended (insertion order). -/

/-- Python `d[k] = v`. -/
def dset (d : List (String × α)) (k : String) (v : α) : List (String × α) :=
  match d with
  | [] => [(k, v)]
  | (k', v') :: rest => if k' = k then (k, v) :: rest else (k', v') :: dset rest k v

/-- Python `d[k]` as an option. -/
def dfind (d : List (String × α)) (k : String) : Option α :=
  match d with
  | [] => none
  | (k', v) :: rest => if k' = k then some v else dfind rest k

/-- Python `defaultdict` read: existing value or the default. -/
def dgetD (d : List (String × α)) (k : String) (v₀ : α) : α :=
  (dfind d k).getD v₀

/-- First-appearance-order deduplication (used for the union of row labels). -/
def dedupFirst (l : List String) : List String :=
  l.foldl (fun acc x => if x ∈ acc then acc else acc ++ [x]) []

/-- `Medal` (IntEnum: Gold = 3, Silver = 2, Bronze = 1). -/
inductive Medal where
  | Gold
  | Silver
  | Bronze
deriving DecidableEq

/-- The IntEnum value of a medal. -/
def Medal.points : Medal → ℕ
  | .Gold => 3
  | .Silver => 2
  | .Bronze => 1

/-- `Medal(v)`: IntEnum construction by value, `ValueError` for any other
value. -/
def medalOfValue (v : ℤ) : Except String Medal :=
  if v = 3 then .ok .Gold
  else if v = 2 then .ok .Silver
  else if v = 1 then .ok .Bronze
  else .error "ValueError: not a valid Medal"

/-- `r.name or f'Round {r.number}'` — Python truthiness: both None and the
empty string fall back to the formatted name. -/
def pyDisplayName (r : Round) : String :=
  match r.name with
  | some s => if s = "" then "Round " ++ toString r.number else s
  | none => "Round " ++ toString r.number

/-- The mutable state of the `for r in rounds: for sub in r.submissions:`
loop of `make_leaderboards` (scoring.py lines 183-196). -/
structure LeaderboardState where
  points : List (String × List (String × ℚ)) := []
  distances : List (String × List (String × ℚ)) := []
  medals : List (String × List Medal) := []
deriving DecidableEq

/-- One iteration of the inner loop of `make_leaderboards`
(scoring.py lines 190-196): raise for an unscored submission, record
score and distance/1000, and award a medal when
`sub.rank and sub.rank <= 3` (truthiness: None and 0 are skipped). -/
def processSubmission (round_name : String) (st : LeaderboardState)
    (sub : Submission) : Except String LeaderboardState := do
  match sub.score, sub.distance with
  | some score, some dist =>
      let st :=
        { st with
          points := dset st.points round_name
            (dset (dgetD st.points round_name []) sub.name score)
          distances := dset st.distances round_name
            (dset (dgetD st.distances round_name []) sub.name (dist / 1000)) }
      match sub.rank with
      | some r =>
          if r ≠ 0 ∧ r ≤ 3 then do
            let m ← medalOfValue (4 - r)
            pure { st with medals := dset st.medals sub.name (dgetD st.medals sub.name [] ++ [m]) }
          else pure st
      | none => pure st
  | _, _ => .error "ValueError: Submissions must be scored to make leaderboards"

/-- One iteration of the outer loop of `make_leaderboards`. -/
def processRound (st : LeaderboardState) (r : Round) : Except String LeaderboardState :=
  r.submissions.foldlM (processSubmission (pyDisplayName r)) st

/-- One row of a points/distance leaderboard after `_add_totals`. -/
structure LBRow where
  player : String
  total : ℚ
  average : ℚ
  cells : List (Option ℚ)
deriving DecidableEq

/-- A points/distance leaderboard: its column labels (`Total`, `Average`,
then one column per round) and its rows. -/
structure Leaderboard where
  columns : List String
  rows : List LBRow
deriving DecidableEq

/-- `df.sum(axis='columns')` over a row: missing (NaN) cells are skipped. -/
def rowTotal (cells : List (Option ℚ)) : ℚ :=
  (cells.filterMap id).sum

/-- `pandas.DataFrame(d)` followed by `_add_totals` (scoring.py lines
174-177): `Total` is inserted first, so when `Average = Total /
df.columns.size` is computed the column count is (number of rounds) + 1;
rows are then sorted by `Total`. -/
def addTotals (d : List (String × List (String × ℚ))) (players : List String)
    (ascending : Bool) : Leaderboard :=
  let cols := d.map (·.1)
  let rows := players.map fun p =>
    let cells := d.map fun c => dfind c.2 p
    let total := rowTotal cells
    { player := p, total := total, average := total / (cols.length + 1), cells := cells }
  { columns := "Total" :: "Average" :: cols
    rows := insertionSort
      (fun a b => if ascending then a.total < b.total else b.total < a.total) rows }

/-- The points leaderboard of `make_leaderboards` (scoring.py lines
198-200): row labels are the union of all player names. -/
def make_points_leaderboard (d : List (String × List (String × ℚ))) : Leaderboard :=
  addTotals d (dedupFirst (d.flatMap fun c => c.2.map (·.1))) false

/-- The distance leaderboard (scoring.py lines 202-204): `.dropna()` keeps
only players with a value in every round. -/
def make_distance_leaderboard (d : List (String × List (String × ℚ))) : Leaderboard :=
  addTotals d
    ((dedupFirst (d.flatMap fun c => c.2.map (·.1))).filter fun p =>
      d.all fun c => (dfind c.2 p).isSome)
    true

/-- One row of the medal leaderboard. -/
structure MedalRow where
  player : String
  gold : ℕ
  silver : ℕ
  bronze : ℕ
  medal_score : ℕ
deriving DecidableEq

/-- `_count_medals` (scoring.py lines 146-171): per-player medal counts and
`Medal Score` = sum of the medals' IntEnum values, sorted descending. -/
def count_medals (medals : List (String × List Medal)) : List MedalRow :=
  insertionSort (fun a b => b.medal_score < a.medal_score)
    (medals.map fun pm =>
      { player := pm.1
        gold := pm.2.count .Gold
        silver := pm.2.count .Silver
        bronze := pm.2.count .Bronze
        medal_score := (pm.2.map Medal.points).sum })

/-- `make_leaderboards` (scoring.py lines 180-207). -/
def make_leaderboards (rounds : List Round) :
    Except String (Leaderboard × Leaderboard × List MedalRow) := do
  let st ← rounds.foldlM processRound {}
  return (make_points_leaderboard st.points,
    make_distance_leaderboard st.distances,
    count_medals st.medals)

/-! ### `score_round` (`src/travelpygame/scoring.py` lines 90-135) -/

/-- Python `int()` truncation toward zero (the effect of
`Series.astype(int)` on finite floats). -/
def pyTrunc (q : ℚ) : ℤ :=
  if 0 ≤ q then ⌊q⌋ else -⌊-q⌋

/-- The finite value of a `PFloat`. Only applied where the surrounding code
guarantees finiteness (`score_round` errors out first on NaN ranks and its
finite-`n ≥ 2` scores are always finite; `n ≤ 1` never reaches this point). -/
def PFloat.valOr0 : PFloat → ℚ
  | .val q => q
  | _ => 0

namespace Scoring

/-- `scores.rank(ascending=False)` with the default `method='average'`:
the mean of the smallest and largest ordinal rank of the tied group;
NaN entries get NaN rank. -/
def rankAvgDesc {n : ℕ} (s : Fin n → PFloat) (i : Fin n) : Option ℚ :=
  if (s i).isNan then none
  else some
    (((1 + (Finset.univ.filter fun j => (s i).ltB (s j)).card : ℚ) +
      ((Finset.univ.filter fun j => s j = s i ∨ (s i).ltB (s j)).card : ℚ)) / 2)

/-- `score_distances` on lists (aligning the three input `Series` by
position, as a pandas DataFrame does). -/
def score_distances_list (distances : List ℚ) (is5 isA : List Bool)
    (o : ScoringOptions) : List PFloat :=
  (List.finRange distances.length).map fun i =>
    score_distances (fun j => distances.get j)
      (fun j => is5.getD j false) (fun j => isA.getD j false) o i

/-- `scores.rank(ascending=False)` on the same list layout. -/
def rank_avg_desc_list (scores : List PFloat) : List (Option ℚ) :=
  (List.finRange scores.length).map fun i => rankAvgDesc (fun j => scores.get j) i

end Scoring

/-- Comparison on optional ints for the final `sort(key=attrgetter('rank'))`
of `score_round`; every rank is populated at that point. -/
def optLtInt (a b : Option ℤ) : Bool :=
  match a, b with
  | some x, some y => x < y
  | _, _ => false

/-- `score_round` (scoring.py lines 90-135). An empty round is returned
unchanged. Distances are recomputed with the selected metric when any
submission lacks one; unknown `is_5k` flags are resolved against
`fivek_threshold` (when the threshold is None, unknown flags survive into
the boolean mask, which pandas rejects); `ranks.astype(int)` raises on the
NaN ranks produced by NaN scores (as happens for `n = 1`). -/
def score_round (hav geod : Metric) (round_ : Round) (options : ScoringOptions)
    (fivek_threshold : Option ℚ) (use_haversine : Bool) : Except String Round := do
  let n := round_.submissions.length
  if n = 0 then return round_
  let distances : List ℚ :=
    if round_.submissions.any fun s => s.distance.isNone then
      if use_haversine then
        round_.submissions.map fun s =>
          hav s.latitude s.longitude round_.latitude round_.longitude
      else
        round_.submissions.map fun s =>
          geod round_.latitude round_.longitude s.latitude s.longitude
    else round_.submissions.map fun s => s.distance.getD 0
  let is5k : List Bool ←
    match fivek_threshold with
    | some t =>
        pure ((round_.submissions.zip distances).map fun sd =>
          sd.1.is_5k.getD (decide (sd.2 ≤ t)))
    | none =>
        if round_.submissions.any fun s => s.is_5k.isNone then
          .error "ValueError: cannot mask with an array containing NA values"
        else pure (round_.submissions.map fun s => s.is_5k.getD false)
  let isA : List Bool := round_.submissions.map fun s => s.is_antipode_5k.getD false
  let scores := Scoring.score_distances_list distances is5k isA options
  let ranksQ := Scoring.rank_avg_desc_list scores
  if ranksQ.any fun r => r.isNone then
    .error "IntCastingNaNError: Cannot convert non-finite values (NA or inf) to integer"
  else
    let scored_subs :=
      (((round_.submissions.zip distances).zip (is5k.zip scores)).zip ranksQ).map
        fun x =>
          { x.1.1.1 with
            rank := some (pyTrunc (x.2.getD 0))
            score := some x.1.2.2.valOr0
            distance := some x.1.1.2
            is_5k := some x.1.2.1 }
    return { round_ with
      submissions := insertionSort (fun a b => optLtInt a.rank b.rank) scored_subs }

/-! ### Simulation Engine (`src/travelpygame/simulation.py`) -/

/-- `SimulatedStrategy` (lines 26-32). -/
inductive SimulatedStrategy where
  | Closest
  | Furthest
  | Random
deriving DecidableEq

/-- A player's point set (`src/travelpygame/point_set.py`): a named
collection of labelled points (`gdf.geometry` with its index labels; only
the name and the labelled points are relevant to the simulation). -/
structure PointSet where
  name : String
  points : List (String × (ℚ × ℚ))
deriving DecidableEq

/-- The `Simulation` dataclass (simulation.py lines 35-49). Note that the
dataclass has *no* random-seed field; line 49 of the source is a comment
reading "Probably want a random seed parameter in here?". -/
structure Simulation where
  rounds : List (String × (ℚ × ℚ))
  round_order : Option (List (String × ℤ))
  point_sets : List PointSet
  scoring : ScoringOptions
  strategy : SimulatedStrategy := .Closest
  use_haversine : Bool := true
  use_tqdm : Bool := true
deriving DecidableEq

/-- `Simulation._choose_pic` (simulation.py lines 51-67), returning
`(point, distance, desc)`.

For the Random strategy, `point_set.points.sample(1)` draws from the
process-global numpy random generator; since the bundle carries no seed,
the drawn position is an *external* input `rngDraw` (reduced mod the size).

For the other strategies the source calls
`get_best_pic(point_set, target, use_haversine=..., reverse=...)`
(lines 58-63), but `best_pics.get_best_pic` accepts no `reverse` keyword
(best_pics.py line 62), so Python raises `TypeError` at call binding,
before the callee body runs. The body that would run had the call bound is
embedded after the binding check. -/
def Simulation.choose_pic (sim : Simulation) (hav geod : Metric) (rngDraw : ℕ)
    (point_set : PointSet) (target : ℚ × ℚ) :
    Except String ((ℚ × ℚ) × Option ℚ × Option String) :=
  if sim.strategy = .Random then
    if point_set.points.length = 0 then
      .error "ValueError: cannot sample from an empty collection"
    else
      let kv := point_set.points.getD (rngDraw % point_set.points.length) ("", (0, 0))
      .ok (kv.2, none, some kv.1)
  else
    if pythonKwargsBind get_best_pic_keyword_params choose_pic_call_keywords then
      let dist_func := if sim.use_haversine then hav else geod
      match get_best_pic_inner dist_func target (point_set.points.map (·.2)) with
      | some id =>
          let kv := point_set.points.getD id.1 ("", (0, 0))
          .ok (kv.2, some id.2, some kv.1)
      | none => .error "ValueError: min() arg is an empty sequence"
    else .error "TypeError: get_best_pic() got an unexpected keyword argument reverse"

/-- `Simulation.simulate_round` (simulation.py lines 69-87): choose one pic
per point set, assemble an unscored `Round`, and pass it through
`score_round` with the default 5K threshold. `rng` supplies the external
random draws used by the Random strategy (one per point set). -/
def Simulation.simulate_round (sim : Simulation) (hav geod : Metric)
    (rng : ℕ → ℕ) (name : String) (number : ℤ) (target : ℚ × ℚ) :
    Except String Round := do
  let submissions ← sim.point_sets.enum.mapM fun ips => do
    let (point, distance, desc) ← sim.choose_pic hav geod (rng ips.1) ips.2 target
    pure ({ name := ips.2.name, latitude := point.2, longitude := point.1,
            description := desc, distance := distance } : Submission)
  let r : Round := { name := some name, number := number, latitude := target.2,
                     longitude := target.1, submissions := submissions }
  score_round hav geod r sim.scoring (some (1/10)) sim.use_haversine

/-! ### JSON persistence (`src/travelpygame/tpg_data/io.py` and the pydantic
models of `src/travelpygame/tpg_data/classes.py`)

`rounds_to_json` serialises with `exclude_none=True` (io.py line 48), so
every field holding None is omitted from the JSON object. Loading runs
pydantic validation: a field *without a default* must be present — and
`Round.name : str | None` has no default in the source. The
whitespace-retabbing regex applied by `rounds_to_json` only touches
inter-token whitespace (string literals have their newlines escaped), so
the JSON is modelled as a value tree. -/

/-- A JSON value. -/
inductive JValue where
  | null
  | bool (b : Bool)
  | num (q : ℚ)
  | str (s : String)
  | arr (xs : List JValue)
  | obj (fields : List (String × JValue))

/-- Emit an optional field, omitting it when the value is None
(`exclude_none=True`). -/
def optField (k : String) : Option JValue → List (String × JValue)
  | some v => [(k, v)]
  | none => []

/-- pydantic `model_dump_json(exclude_none=True)` of a `Submission`,
fields in declaration order. -/
def dumpSubmission (s : Submission) : JValue :=
  .obj ([("name", .str s.name), ("latitude", .num s.latitude),
      ("longitude", .num s.longitude)]
    ++ optField "description" (s.description.map .str)
    ++ optField "is_5k" (s.is_5k.map .bool)
    ++ optField "is_antipode_5k" (s.is_antipode_5k.map .bool)
    ++ [("is_tie", .bool s.is_tie)]
    ++ optField "score" (s.score.map .num)
    ++ optField "rank" (s.rank.map fun r => .num (r : ℚ))
    ++ optField "distance" (s.distance.map .num))

/-- pydantic `model_dump_json(exclude_none=True)` of a `Round`. -/
def dumpRound (r : Round) : JValue :=
  .obj (optField "name" (r.name.map .str)
    ++ [("type", .str "normal"), ("number", .num (r.number : ℚ))]
    ++ optField "season" (r.season.map fun v => .num (v : ℚ))
    ++ optField "country_code" (r.country_code.map .str)
    ++ [("latitude", .num r.latitude), ("longitude", .num r.longitude),
        ("submissions", .arr (r.submissions.map dumpSubmission))])

/-- `rounds_to_json` (io.py lines 46-49) at the level of the JSON tree. -/
def rounds_to_json (rounds : List Round) : JValue :=
  .arr (rounds.map dumpRound)

/-- Field lookup in a JSON object. -/
def jlookup (fields : List (String × JValue)) (k : String) : Option JValue :=
  dfind fields k

/-- A required `str` field. -/
def parseStr : Option JValue → Except String String
  | some (.str s) => .ok s
  | some _ => .error "ValidationError: Input should be a valid string"
  | none => .error "ValidationError: Field required"

/-- A required `float` field (JSON numbers, ints included). -/
def parseNum : Option JValue → Except String ℚ
  | some (.num q) => .ok q
  | some _ => .error "ValidationError: Input should be a valid number"
  | none => .error "ValidationError: Field required"

/-- A required `int` field. -/
def parseInt : Option JValue → Except String ℤ
  | some (.num q) =>
      if q.den = 1 then .ok q.num
      else .error "ValidationError: Input should be a valid integer"
  | some _ => .error "ValidationError: Input should be a valid integer"
  | none => .error "ValidationError: Field required"

/-- An optional field with default None: absent or null gives None. -/
def parseOpt (f : Option JValue → Except String α) :
    Option JValue → Except String (Option α)
  | none => .ok none
  | some .null => .ok none
  | some v => (f (some v)).map some

/-- A required-but-nullable field (declared `T | None` with *no* default,
like `Round.name`): it must be present, but may be null. -/
def parseRequiredNullable (f : Option JValue → Except String α) :
    Option JValue → Except String (Option α)
  | none => .error "ValidationError: Field required"
  | some .null => .ok none
  | some v => (f (some v)).map some

/-- A required `bool` field with a non-None default (like
`Submission.is_tie = False`): absent gives the default, null is invalid. -/
def parseBoolD (dflt : Bool) : Option JValue → Except String Bool
  | none => .ok dflt
  | some (.bool b) => .ok b
  | some _ => .error "ValidationError: Input should be a valid boolean"

/-- A nullable `bool`. -/
def parseBool : Option JValue → Except String Bool
  | some (.bool b) => .ok b
  | some _ => .error "ValidationError: Input should be a valid boolean"
  | none => .error "ValidationError: Field required"

/-- pydantic validation of a `Submission`. -/
def parseSubmission : JValue → Except String Submission
  | .obj fs => do
      let name ← parseStr (jlookup fs "name")
      let latitude ← parseNum (jlookup fs "latitude")
      let longitude ← parseNum (jlookup fs "longitude")
      let description ← parseOpt parseStr (jlookup fs "description")
      let is_5k ← parseOpt parseBool (jlookup fs "is_5k")
      let is_antipode_5k ← parseOpt parseBool (jlookup fs "is_antipode_5k")
      let is_tie ← parseBoolD false (jlookup fs "is_tie")
      let score ← parseOpt parseNum (jlookup fs "score")
      let rank ← parseOpt parseInt (jlookup fs "rank")
      let distance ← parseOpt parseNum (jlookup fs "distance")
      return { name := name, latitude := latitude, longitude := longitude,
               description := description, is_5k := is_5k,
               is_antipode_5k := is_antipode_5k, is_tie := is_tie,
               score := score, rank := rank, distance := distance }
  | _ => .error "ValidationError: Input should be an object"

/-- `TPGType` validation: the StrEnum has the single member `normal`;
the field has default `TPGType.Normal`. -/
def parseTPGType : Option JValue → Except String TPGType
  | none => .ok .normal
  | some (.str s) =>
      if s = "normal" then .ok .normal
      else .error "ValidationError: Input should be normal"
  | some _ => .error "ValidationError: Input should be normal"

/-- pydantic validation of a `Round`. `name : str | None` has no default,
so a missing `name` key is a validation error. -/
def parseRound : JValue → Except String Round
  | .obj fs => do
      let name ← parseRequiredNullable parseStr (jlookup fs "name")
      let type ← parseTPGType (jlookup fs "type")
      let number ← parseInt (jlookup fs "number")
      let season ← parseOpt parseInt (jlookup fs "season")
      let country_code ← parseOpt parseStr (jlookup fs "country_code")
      let latitude ← parseNum (jlookup fs "latitude")
      let longitude ← parseNum (jlookup fs "longitude")
      let submissions ←
        match jlookup fs "submissions" with
        | some (.arr xs) => xs.mapM parseSubmission
        | some _ => .error "ValidationError: Input should be a valid list"
        | none => .error "ValidationError: Field required"
      return { name := name, type := type, number := number, season := season,
               country_code := country_code, latitude := latitude,
               longitude := longitude, submissions := submissions }
  | _ => .error "ValidationError: Input should be an object"

/-- `load_rounds` (io.py lines 29-32): `round_list_adapter.validate_json`. -/
def load_rounds : JValue → Except String (List Round)
  | .arr xs => xs.mapM parseRound
  | _ => .error "ValidationError: Input should be a valid list"

/-! ### Decidability helper and concrete example inputs -/

instance {ε α : Type} [DecidableEq ε] [DecidableEq α] : DecidableEq (Except ε α) :=
  fun a b =>
    match a, b with
    | .ok x, .ok y =>
        if h : x = y then isTrue (by rw [h])
        else isFalse (by intro hc; cases hc; exact h rfl)
    | .error x, .error y =>
        if h : x = y then isTrue (by rw [h])
        else isFalse (by intro hc; cases hc; exact h rfl)
    | .ok _, .error _ => isFalse (by intro hc; cases hc)
    | .error _, .ok _ => isFalse (by intro hc; cases hc)

/-- A placeholder metric for claims whose behaviour does not depend on the
metric values. -/
def mZero : Metric := fun _ _ _ _ => 0

/-- The options of the C8 counterexample: a rank-bonus table paying a bonus
at rank 2 but none at rank 1 (no 5K or antipode override is configured). -/
def cexOpts8 : ScoringOptions :=
  { fivek_flat_score := none
    fivek_bonus := none
    rank_bonuses := some [(2, 5000)]
    antipode_5k_flat_score := none }

/-- The options of the C8 witness: no rank bonuses at all. -/
def witOpts8 : ScoringOptions :=
  { fivek_flat_score := none
    fivek_bonus := none
    rank_bonuses := none
    antipode_5k_flat_score := none }

/-- Rank-1 submission of the concrete two-player scored round. -/
def subA3 : Submission :=
  { name := "A", latitude := 1, longitude := 1, score := some 100,
    rank := some 1, distance := some 40 }

/-- Rank-2 submission of the concrete two-player scored round. -/
def subB3 : Submission :=
  { name := "B", latitude := 2, longitude := 2, score := some 50,
    rank := some 2, distance := some 100 }

/-- A concrete scored round with two submissions at distances 40 < 100. -/
def round3 : Round :=
  { name := some "R", number := 1, latitude := 0, longitude := 0,
    submissions := [subA3, subB3] }

/-- Player A's scored submission of round "R1" (score 10). -/
def s5a : Submission :=
  { name := "A", latitude := 0, longitude := 0, score := some 10,
    rank := some 1, distance := some 1000 }

/-- Player A's scored submission of round "R2" (score 20). -/
def s5b : Submission :=
  { name := "A", latitude := 0, longitude := 0, score := some 20,
    rank := some 1, distance := some 2000 }

/-- Round "R1" of the leaderboard example. -/
def r5a : Round :=
  { name := some "R1", number := 1, latitude := 0, longitude := 0,
    submissions := [s5a] }

/-- Round "R2" of the leaderboard example. -/
def r5b : Round :=
  { name := some "R2", number := 2, latitude := 0, longitude := 0,
    submissions := [s5b] }

/-- A round whose (required but nullable) name is null. -/
def badRound : Round :=
  { name := none, number := 1, latitude := 0, longitude := 0, submissions := [] }

/-- A fully populated submission for the JSON round-trip example. -/
def goodSub : Submission :=
  { name := "A", latitude := 1, longitude := 2, description := some "d",
    is_5k := some true, is_antipode_5k := none, is_tie := true,
    score := some (5/2), rank := some 1, distance := some 100 }

/-- A fully populated round for the JSON round-trip example. -/
def goodRound : Round :=
  { name := some "R1", number := 2, season := some 3, country_code := some "AU",
    latitude := 5, longitude := 6,
    submissions := [goodSub, { name := "B", latitude := 3, longitude := 4 }] }

/-- A two-pic point set for the simulation examples. -/
def ps1 : PointSet := { name := "P", points := [("x", (10, 10)), ("y", (20, 20))] }

/-- A concrete simulation bundle with the default (Closest) strategy. -/
def sim1 : Simulation :=
  { rounds := [("R", (0, 0))], round_order := none, point_sets := [ps1],
    scoring := main_tpg_scoring }

/-- The same bundle with the Random strategy. -/
def simR : Simulation := { sim1 with strategy := .Random }

/-- A second point set so the Random-strategy example has a two-player round. -/
def ps2 : PointSet := { name := "Q", points := [("z", (30, 30))] }

/-- A Random-strategy simulation with two point sets. -/
def simR2 : Simulation :=
  { rounds := [("R", (0, 0))], round_order := none, point_sets := [ps1, ps2],
    scoring := main_tpg_scoring, strategy := .Random }

/-- A scored submission carrying a negative rank, which the data model
(`rank: int | None`) allows. -/
def subNegRank : Submission :=
  { name := "N", latitude := 0, longitude := 0, score := some 10,
    rank := some (-1), distance := some 1000 }

/-- A fully scored round whose single submission has rank -1. -/
def r10bad : Round :=
  { name := some "RN", number := 1, latitude := 0, longitude := 0,
    submissions := [subNegRank] }

/-! ## Theorems -/

/-! ### Generic lemmas about the stable insertion sort -/

theorem mem_insertSorted {lt : α → α → Bool} {x a : α} :
    ∀ {l : List α}, a ∈ insertSorted lt x l ↔ a = x ∨ a ∈ l := by
  intro l
  induction l with
  | nil => simp [insertSorted]
  | cons y ys ih =>
      simp only [insertSorted]
      by_cases h : lt x y
      · simp [h]
      · simp [h, ih]
        tauto

theorem insertSorted_of_all_not_lt {lt : α → α → Bool} {x : α} :
    ∀ {l : List α}, (∀ y ∈ l, lt x y = false) → insertSorted lt x l = l ++ [x] := by
  intro l
  induction l with
  | nil => simp [insertSorted]
  | cons y ys ih =>
      intro h
      have hy : lt x y = false := h y (by simp)
      simp only [insertSorted, hy, Bool.false_eq_true, if_false, List.cons_append,
        List.cons.injEq, true_and]
      exact ih fun z hz => h z (by simp [hz])

theorem insertionSort_aux_sorted_id {lt : α → α → Bool} :
    ∀ (l acc : List α), (∀ x ∈ l, ∀ y ∈ acc, lt x y = false) →
      l.Pairwise (fun a b => lt b a = false) →
      l.foldl (fun acc x => insertSorted lt x acc) acc = acc ++ l := by
  intro l
  induction l with
  | nil => intro acc _ _; simp
  | cons x xs ih =>
      intro acc hcross hpair
      have hins : insertSorted lt x acc = acc ++ [x] :=
        insertSorted_of_all_not_lt fun y hy => hcross x (by simp) y hy
      have hpair' := (List.pairwise_cons.mp hpair)
      have := ih (acc ++ [x]) ?_ hpair'.2
      · simp only [List.foldl_cons, hins, this, List.append_assoc, List.singleton_append]
      · intro z hz y hy
        rcases List.mem_append.mp hy with hy | hy
        · exact hcross z (by simp [hz]) y hy
        · rcases List.mem_singleton.mp hy with rfl
          exact hpair'.1 z hz

/-- A list already sorted for `lt` (no later element is `lt`-below an
earlier one) is left unchanged by the stable insertion sort — matching
Python's `sorted` on an already-sorted list. -/
theorem insertionSort_sorted_id {lt : α → α → Bool} {l : List α}
    (h : l.Pairwise (fun a b => lt b a = false)) : insertionSort lt l = l := by
  simpa [insertionSort] using insertionSort_aux_sorted_id l [] (by simp) h

theorem pairwise_insertSorted {le : α → α → Prop} {lt : α → α → Bool}
    (h1 : ∀ a b, lt a b = false → le b a) (h2 : ∀ a b, lt a b = true → le a b)
    (ht : ∀ a b c, le a b → le b c → le a c) (x : α) :
    ∀ {l : List α}, l.Pairwise le → (insertSorted lt x l).Pairwise le := by
  intro l
  induction l with
  | nil => intro _; simp [insertSorted]
  | cons y ys ih =>
      intro hp
      obtain ⟨hy, hys⟩ := List.pairwise_cons.mp hp
      simp only [insertSorted]
      by_cases h : lt x y
      · rw [if_pos h]
        refine List.pairwise_cons.mpr ⟨?_, hp⟩
        intro z hz
        rcases hz with _ | hz
        · exact h2 _ _ h
        · exact ht _ _ _ (h2 _ _ h) (hy _ (by assumption))
      · rw [if_neg h]
        refine List.pairwise_cons.mpr ⟨?_, ih hys⟩
        intro z hz
        rcases mem_insertSorted.mp hz with rfl | hz
        · exact h1 _ _ (by simpa using h)
        · exact hy _ hz

theorem pairwise_insertionSort {le : α → α → Prop} {lt : α → α → Bool}
    (h1 : ∀ a b, lt a b = false → le b a) (h2 : ∀ a b, lt a b = true → le a b)
    (ht : ∀ a b c, le a b → le b c → le a c) :
    ∀ (l acc : List α), acc.Pairwise le →
      (l.foldl (fun acc x => insertSorted lt x acc) acc).Pairwise le := by
  intro l
  induction l with
  | nil => intro acc h; simpa using h
  | cons x xs ih =>
      intro acc hacc
      exact ih _ (pairwise_insertSorted h1 h2 ht x hacc)

/-- The stable insertion sort produces a `le`-sorted list whenever the
Boolean comparison is a strict version of the transitive relation `le`. -/
theorem insertionSort_pairwise {le : α → α → Prop} {lt : α → α → Bool}
    (h1 : ∀ a b, lt a b = false → le b a) (h2 : ∀ a b, lt a b = true → le a b)
    (ht : ∀ a b c, le a b → le b c → le a c) (l : List α) :
    (insertionSort lt l).Pairwise le :=
  pairwise_insertionSort h1 h2 ht l [] (by simp)

theorem mem_insertionSort_aux {lt : α → α → Bool} :
    ∀ (l acc : List α) (a : α),
      (a ∈ l.foldl (fun acc x => insertSorted lt x acc) acc) ↔ a ∈ acc ∨ a ∈ l := by
  intro l
  induction l with
  | nil => simp
  | cons x xs ih =>
      intro acc a
      simp only [List.foldl_cons, ih, mem_insertSorted]
      constructor
      · rintro ((rfl | h) | h) <;> simp [*]
      · rintro (h | h)
        · tauto
        · rcases List.mem_cons.mp h with rfl | h <;> tauto

/-- Sorting does not change membership. -/
theorem mem_insertionSort {lt : α → α → Bool} {l : List α} {a : α} :
    a ∈ insertionSort lt l ↔ a ∈ l := by
  simpa [insertionSort] using mem_insertionSort_aux l [] a

/-! ### Correctness of the `bisect_right` binary search -/

theorem bisectGo_split (a : List ℚ) (x : ℚ) (hs : a.Pairwise (· ≤ ·)) :
    ∀ (fuel lo hi : ℕ), hi - lo ≤ fuel → lo ≤ hi → hi ≤ a.length →
      (∀ i : Fin a.length, (i : ℕ) < lo → a.get i ≤ x) →
      (∀ i : Fin a.length, hi ≤ (i : ℕ) → x < a.get i) →
      lo ≤ bisectGo a x lo hi ∧ bisectGo a x lo hi ≤ hi ∧
        (∀ i : Fin a.length, (i : ℕ) < bisectGo a x lo hi → a.get i ≤ x) ∧
        (∀ i : Fin a.length, bisectGo a x lo hi ≤ (i : ℕ) → x < a.get i) := by
  intro fuel
  induction fuel with
  | zero =>
      intro lo hi hfuel hlh hlen hlow hhigh
      have : lo = hi := by omega
      subst this
      rw [bisectGo]
      simp only [lt_irrefl, dite_false]
      exact ⟨le_refl _, le_refl _, hlow, hhigh⟩
  | succ fuel ih =>
      intro lo hi hfuel hlh hlen hlow hhigh
      rw [bisectGo]
      by_cases h : lo < hi
      · rw [dif_pos h]
        have hmidlt : (lo + hi) / 2 < hi := by omega
        have hmidge : lo ≤ (lo + hi) / 2 := by omega
        have hmidlen : (lo + hi) / 2 < a.length := lt_of_lt_of_le hmidlt hlen
        have hget : a[(lo + hi) / 2]! = a.get ⟨(lo + hi) / 2, hmidlen⟩ := by
          rw [getElem!_pos a _ hmidlen]
          rfl
        by_cases hx : x < a[(lo + hi) / 2]!
        · rw [if_pos hx]
          refine ?_
          have hres := ih lo ((lo + hi) / 2) (by omega) hmidge
            (le_of_lt hmidlen) hlow ?_
          · exact ⟨hres.1, le_trans hres.2.1 (le_of_lt hmidlt), hres.2.2⟩
          · intro i hi2
            have hmono : a.get ⟨(lo + hi) / 2, hmidlen⟩ ≤ a.get i := by
              rcases eq_or_lt_of_le hi2 with heq | hlt
              · have : i = ⟨(lo + hi) / 2, hmidlen⟩ := Fin.ext heq.symm
                rw [this]
              · exact List.pairwise_iff_get.mp hs _ _ hlt
            calc x < a[(lo + hi) / 2]! := hx
              _ = a.get ⟨(lo + hi) / 2, hmidlen⟩ := hget
              _ ≤ a.get i := hmono
        · rw [if_neg hx]
          have hale : a.get ⟨(lo + hi) / 2, hmidlen⟩ ≤ x := by
            rw [← hget]; exact le_of_not_lt hx
          have hres := ih ((lo + hi) / 2 + 1) hi (by omega) (by omega) hlen ?_ hhigh
          · exact ⟨le_trans (by omega) hres.1, hres.2.1, hres.2.2⟩
          · intro i hi2
            rcases Nat.lt_or_ge (i : ℕ) ((lo + hi) / 2) with hlt | hge
            · calc a.get i ≤ a.get ⟨(lo + hi) / 2, hmidlen⟩ :=
                    List.pairwise_iff_get.mp hs _ _ hlt
                _ ≤ x := hale
            · have : (i : ℕ) = (lo + hi) / 2 := by omega
              have : i = ⟨(lo + hi) / 2, hmidlen⟩ := Fin.ext this
              rw [this]; exact hale
      · rw [dif_neg h]
        have : lo = hi := by omega
        subst this
        exact ⟨le_refl _, le_refl _, hlow, hhigh⟩

/-- Split property of `bisect`: for a sorted list, everything strictly
before the returned insertion point is `≤ x` and everything from it on is
`> x`. -/
theorem bisect_split (a : List ℚ) (x : ℚ) (hs : a.Pairwise (· ≤ ·)) :
    bisect a x ≤ a.length ∧
      (∀ i : Fin a.length, (i : ℕ) < bisect a x → a.get i ≤ x) ∧
      (∀ i : Fin a.length, bisect a x ≤ (i : ℕ) → x < a.get i) := by
  have h := bisectGo_split a x hs a.length 0 a.length (by omega) (by omega)
    (le_refl _) (fun i hi => absurd hi (Nat.not_lt_zero _))
    (fun i hi => absurd i.isLt (not_lt.mpr hi))
  exact ⟨h.2.1, h.2.2⟩

/-- `bisect` returns 0 exactly when `x` is below every element. -/
theorem bisect_eq_zero_iff (a : List ℚ) (x : ℚ) (hs : a.Pairwise (· ≤ ·)) :
    bisect a x = 0 ↔ ∀ i : Fin a.length, x < a.get i := by
  obtain ⟨hle, hlow, hhigh⟩ := bisect_split a x hs
  constructor
  · intro h i
    exact hhigh i (by omega)
  · intro h
    by_contra hne
    have h1 : 0 < bisect a x := Nat.pos_of_ne_zero hne
    have h2 : (0 : ℕ) < a.length := lt_of_lt_of_le h1 hle
    have := hlow ⟨0, h2⟩ h1
    exact absurd this (not_le.mpr (h ⟨0, h2⟩))

/-! ### Monotonicity of numpy's round-half-even -/

theorem roundHalfEven_ge_floor (q : ℚ) : ⌊q⌋ ≤ roundHalfEven q := by
  unfold roundHalfEven
  split_ifs <;> omega

theorem roundHalfEven_le_floor_add_one (q : ℚ) : roundHalfEven q ≤ ⌊q⌋ + 1 := by
  unfold roundHalfEven
  split_ifs <;> omega

theorem roundHalfEven_mono {a b : ℚ} (h : a ≤ b) :
    roundHalfEven a ≤ roundHalfEven b := by
  have hf : ⌊a⌋ ≤ ⌊b⌋ := Int.floor_le_floor h
  rcases lt_or_eq_of_le hf with hlt | heq
  · calc roundHalfEven a ≤ ⌊a⌋ + 1 := roundHalfEven_le_floor_add_one a
      _ ≤ ⌊b⌋ := by omega
      _ ≤ roundHalfEven b := roundHalfEven_ge_floor b
  · unfold roundHalfEven
    rw [← heq]
    have hr : a - ⌊a⌋ ≤ b - ⌊a⌋ := by linarith
    split_ifs <;> first
      | omega
      | (exfalso; linarith)

theorem roundToPlaces_mono (k : ℤ) {a b : ℚ} (h : a ≤ b) :
    roundToPlaces k a ≤ roundToPlaces k b := by
  unfold roundToPlaces
  have hpow : (0 : ℚ) < (10 : ℚ) ^ k := zpow_pos (by norm_num) k
  have h1 : a * (10 : ℚ) ^ k ≤ b * (10 : ℚ) ^ k :=
    mul_le_mul_of_nonneg_right h (le_of_lt hpow)
  have h2 : roundHalfEven (a * (10 : ℚ) ^ k) ≤ roundHalfEven (b * (10 : ℚ) ^ k) :=
    roundHalfEven_mono h1
  have h3 : ((roundHalfEven (a * (10 : ℚ) ^ k) : ℤ) : ℚ) ≤
      ((roundHalfEven (b * (10 : ℚ) ^ k) : ℤ) : ℚ) := by exact_mod_cast h2
  gcongr

namespace Scoring

variable {n : ℕ}

/-! ### For `n ≥ 2` the `score_distances` pipeline is finite and agrees
with the rational mirror `scoreQ`. -/

theorem playersBeatenScore_val (d : Fin n → ℚ) (i : Fin n) (hn : 2 ≤ n) :
    playersBeatenScore d i = .val (playersBeatenScoreQ d i) := by
  have hne : ((n : ℚ) - 1) ≠ 0 := by
    have : (2 : ℚ) ≤ (n : ℚ) := by exact_mod_cast hn
    linarith
  unfold playersBeatenScore playersBeatenScoreQ PFloat.fdiv
  rw [if_neg hne]
  rfl

theorem combinedScore_val (o : ScoringOptions) (d : Fin n → ℚ) (i : Fin n)
    (hn : 2 ≤ n) : combinedScore o d i = .val (combinedScoreQ o d i) := by
  unfold combinedScore combinedScoreQ
  rw [playersBeatenScore_val d i hn]
  cases o.average_distance_and_rank <;> simp [PFloat.add, PFloat.divC]

theorem denseRankDesc_val (s : Fin n → ℚ) (i : Fin n) :
    denseRankDesc (fun j => .val (s j)) i = some (denseRankDescQ s i) := by
  unfold denseRankDesc denseRankDescQ
  rw [if_neg (by simp [PFloat.isNan])]
  have himg : (Finset.univ.image fun j => PFloat.val (s j)) =
      (Finset.univ.image s).image PFloat.val := by
    rw [Finset.image_image]; rfl
  have hfilter :
      ((Finset.univ.image s).filter fun a =>
          ((fun j => PFloat.val (s j)) i).ltB (PFloat.val a)) =
        (Finset.univ.image s).filter fun v => s i < v :=
    Finset.filter_congr fun x _ => by simp [PFloat.ltB]
  rw [himg, Finset.filter_image, hfilter,
    Finset.card_image_of_injective _ fun a b h => by injection h]

theorem PFloat_addC_zero (x : PFloat) : x.addC 0 = x := by
  cases x <;> simp [PFloat.addC]

theorem PFloat_addC_addC (x : PFloat) (a b : ℚ) :
    (x.addC a).addC b = x.addC (a + b) := by
  cases x <;> simp [PFloat.addC] <;> ring

theorem bonusAt_cons (kb : ℤ × ℚ) (rbs : List (ℤ × ℚ)) (r : ℤ) :
    bonusAt (kb :: rbs) r =
      (if kb.1 = r then kb.2 else 0) + bonusAt rbs r := by
  unfold bonusAt
  by_cases h : kb.1 = r <;> simp [h, List.filter_cons]

theorem applyRankBonuses_eq (rbs : List (ℤ × ℚ)) (ranks : Fin n → Option ℤ)
    (i : Fin n) (r : ℤ) (hr : ranks i = some r) :
    ∀ s : Fin n → PFloat,
      applyRankBonuses rbs ranks s i = (s i).addC (bonusAt rbs r) := by
  induction rbs with
  | nil =>
      intro s
      show s i = (s i).addC (bonusAt [] r)
      rw [show bonusAt [] r = 0 from rfl, PFloat_addC_zero]
  | cons kb rest ih =>
      intro s
      show applyRankBonuses rest ranks
        (fun j => if ranks j = some kb.1 then (s j).addC kb.2 else s j) i = _
      rw [ih]
      rw [bonusAt_cons]
      by_cases h : kb.1 = r
      · rw [if_pos (by rw [hr, h]), if_pos h, PFloat_addC_addC]
      · rw [if_neg (by rw [hr]; exact fun hc => h (by injection hc; omega)), if_neg h,
          zero_add]

theorem fivekStage_false (o : ScoringOptions) (m5 mA : Fin n → Bool)
    (s : Fin n → PFloat) (i : Fin n) (h5 : m5 i = false) (hA : mA i = false) :
    fivekStage o m5 mA s i = s i := by
  unfold fivekStage
  cases o.antipode_5k_flat_score <;>
    cases hf : o.fivek_flat_score <;>
    cases hb : o.fivek_bonus <;>
    simp [hf, hb, h5, hA]

theorem rankBonusStage_val (o : ScoringOptions) (d : Fin n → ℚ) (i : Fin n)
    (hn : 2 ≤ n) :
    rankBonusStage o (combinedScore o d) i = .val (scoreQpre o d i) := by
  have hcomb : combinedScore o d = fun j => .val (combinedScoreQ o d j) :=
    funext fun j => combinedScore_val o d j hn
  unfold rankBonusStage scoreQpre
  cases hrb : o.rank_bonuses with
  | none => simp only [hcomb]
  | some rbs =>
      have hranks : denseRankDesc (combinedScore o d) i =
          some (denseRankDescQ (combinedScoreQ o d) i) := by
        rw [hcomb]; exact denseRankDesc_val _ i
      show applyRankBonuses rbs (denseRankDesc (combinedScore o d))
        (combinedScore o d) i = _
      rw [applyRankBonuses_eq rbs _ i _ hranks]
      rw [hcomb]
      rfl

theorem score_distances_val (o : ScoringOptions) (d : Fin n → ℚ)
    (m5 mA : Fin n → Bool) (i : Fin n) (hn : 2 ≤ n)
    (h5 : ∀ j, m5 j = false) (hA : ∀ j, mA j = false) :
    score_distances d m5 mA o i = .val (scoreQ o d i) := by
  unfold score_distances scoreQ
  cases hrt : o.round_to with
  | none =>
      simp only []
      rw [fivekStage_false o m5 mA _ i (h5 i) (hA i)]
      rw [rankBonusStage_val o d i hn]
  | some k =>
      simp only []
      rw [fivekStage_false o m5 mA _ i (h5 i) (hA i)]
      rw [rankBonusStage_val o d i hn]
      cases hrb : o.rank_bonuses <;> rfl

end Scoring

namespace Scoring

variable {n : ℕ}

/-! ### Monotonicity of the scoring pipeline in a single distance -/

theorem distanceScore_anti (o : ScoringOptions)
    (hdiv : ∀ dv, o.distance_divisor = some dv → 0 ≤ dv)
    {a b : ℚ} (h : a ≤ b) : distanceScore o b ≤ distanceScore o a := by
  have hraw : distanceScoreRaw o b ≤ distanceScoreRaw o a := by
    unfold distanceScoreRaw
    cases hda : o.distance_divisor with
    | none =>
        show (o.world_distance_km * 1000 - b) / 1000 ≤
          (o.world_distance_km * 1000 - a) / 1000
        gcongr
    | some dv =>
        show (if dv = 0 then (o.world_distance_km * 1000 - b) / 1000
            else o.world_distance_km / 4 - b / 1000 / dv) ≤
          (if dv = 0 then (o.world_distance_km * 1000 - a) / 1000
            else o.world_distance_km / 4 - a / 1000 / dv)
        by_cases hz : dv = 0
        · rw [if_pos hz, if_pos hz]
          gcongr
        · rw [if_neg hz, if_neg hz]
          have hpos : 0 < dv := lt_of_le_of_ne (hdiv dv hda) (Ne.symm hz)
          gcongr
  unfold distanceScore
  cases o.clip_negative
  · simpa using hraw
  · simpa using max_le_max hraw (le_refl (0 : ℚ))

theorem playersBeaten_eq_card (d : Fin n → ℚ) (i : Fin n) :
    playersBeaten d i = ((Finset.univ.filter fun j => d i < d j).card : ℚ) := by
  unfold playersBeaten rankMax
  have hsplit :
      (Finset.univ.filter fun j => d j ≤ d i).card +
        (Finset.univ.filter fun j => ¬ (d j ≤ d i)).card = n := by
    rw [Finset.filter_card_add_filter_neg_card_eq_card]
    simp
  have hcongr : (Finset.univ.filter fun j => ¬ (d j ≤ d i)) =
      (Finset.univ.filter fun j => d i < d j) :=
    Finset.filter_congr fun j _ => not_le
  rw [← hcongr]
  have hq : ((Finset.univ.filter fun j => d j ≤ d i).card : ℚ) +
      ((Finset.univ.filter fun j => ¬ (d j ≤ d i)).card : ℚ) = (n : ℚ) := by
    exact_mod_cast hsplit
  linarith

theorem combinedScoreQ_eq_valueScore (o : ScoringOptions) (d : Fin n → ℚ)
    (j : Fin n) : combinedScoreQ o d j = valueScore o d (d j) := by
  unfold combinedScoreQ valueScore playersBeatenScoreQ
  rw [playersBeaten_eq_card]

theorem valueScore_lt (o : ScoringOptions) (d : Fin n → ℚ) (hn : 2 ≤ n)
    (hdiv : ∀ dv, o.distance_divisor = some dv → 0 ≤ dv)
    (j k : Fin n) (hjk : d j < d k) :
    valueScore o d (d k) < valueScore o d (d j) := by
  have hds : distanceScore o (d k) ≤ distanceScore o (d j) :=
    distanceScore_anti o hdiv (le_of_lt hjk)
  have hsub : insert k (Finset.univ.filter fun m => d k < d m) ⊆
      Finset.univ.filter fun m => d j < d m := by
    intro m hm
    rcases Finset.mem_insert.mp hm with rfl | hm
    · exact Finset.mem_filter.mpr ⟨Finset.mem_univ _, hjk⟩
    · exact Finset.mem_filter.mpr
        ⟨Finset.mem_univ _, lt_trans hjk (Finset.mem_filter.mp hm).2⟩
  have hknot : k ∉ (Finset.univ.filter fun m => d k < d m) := by
    simp
  have hcard : (Finset.univ.filter fun m => d k < d m).card + 1 ≤
      (Finset.univ.filter fun m => d j < d m).card := by
    have := Finset.card_le_card hsub
    rwa [Finset.card_insert_of_not_mem hknot] at this
  have hnq : (0 : ℚ) < (n : ℚ) - 1 := by
    have : (2 : ℚ) ≤ (n : ℚ) := by exact_mod_cast hn
    linarith
  set cj := (Finset.univ.filter fun m => d j < d m).card with hcj
  set ck := (Finset.univ.filter fun m => d k < d m).card with hck
  have hcq : (ck : ℚ) + 1 ≤ (cj : ℚ) := by exact_mod_cast hcard
  have hrank : 5000 * (((ck : ℚ) + 1) / ((n : ℚ) - 1)) ≤
      5000 * ((cj : ℚ) / ((n : ℚ) - 1)) := by gcongr
  have hexp : 5000 * (((ck : ℚ) + 1) / ((n : ℚ) - 1)) =
      5000 * ((ck : ℚ) / ((n : ℚ) - 1)) + 5000 / ((n : ℚ) - 1) := by
    field_simp
    ring
  have hstep : (0 : ℚ) < 5000 / ((n : ℚ) - 1) := by positivity
  unfold valueScore
  rw [← hcj, ← hck]
  cases o.average_distance_and_rank
  · simp only [Bool.false_eq_true, if_false]
    linarith
  · simp only [if_true]
    linarith

theorem combinedScoreQ_mono_self (o : ScoringOptions) (d d' : Fin n → ℚ)
    (i : Fin n) (hn : 2 ≤ n) (hdiv : ∀ dv, o.distance_divisor = some dv → 0 ≤ dv)
    (hdec : d' i ≤ d i) (hoth : ∀ j, j ≠ i → d' j = d j) :
    combinedScoreQ o d i ≤ combinedScoreQ o d' i := by
  have hds : distanceScore o (d i) ≤ distanceScore o (d' i) :=
    distanceScore_anti o hdiv hdec
  have hsub : (Finset.univ.filter fun j => d i < d j) ⊆
      Finset.univ.filter fun j => d' i < d' j := by
    intro j hj
    obtain ⟨_, hj⟩ := Finset.mem_filter.mp hj
    have hji : j ≠ i := fun hji => absurd hj (by rw [hji]; exact lt_irrefl _)
    exact Finset.mem_filter.mpr
      ⟨Finset.mem_univ _, by rw [hoth j hji]; exact lt_of_le_of_lt hdec hj⟩
  have hcard := Finset.card_le_card hsub
  have hcq : ((Finset.univ.filter fun j => d i < d j).card : ℚ) ≤
      ((Finset.univ.filter fun j => d' i < d' j).card : ℚ) := by exact_mod_cast hcard
  have hnq : (0 : ℚ) < (n : ℚ) - 1 := by
    have : (2 : ℚ) ≤ (n : ℚ) := by exact_mod_cast hn
    linarith
  have hb : playersBeatenScoreQ d i ≤ playersBeatenScoreQ d' i := by
    unfold playersBeatenScoreQ
    rw [playersBeaten_eq_card, playersBeaten_eq_card]
    gcongr
  unfold combinedScoreQ
  cases o.average_distance_and_rank
  · simp only [Bool.false_eq_true, if_false]
    linarith
  · simp only [if_true]
    linarith

end Scoring

namespace Scoring

variable {n : ℕ}

theorem denseRankDescQ_eq_distBelow (o : ScoringOptions) (d : Fin n → ℚ)
    (i : Fin n) (hn : 2 ≤ n)
    (hdiv : ∀ dv, o.distance_divisor = some dv → 0 ≤ dv) :
    denseRankDescQ (combinedScoreQ o d) i = 1 + (distBelow d i : ℤ) := by
  unfold denseRankDescQ distBelow
  have hval : combinedScoreQ o d = fun j => valueScore o d (d j) :=
    funext (combinedScoreQ_eq_valueScore o d)
  have himg : (Finset.univ.image fun j => valueScore o d (d j)) =
      (Finset.univ.image d).image (valueScore o d) := by
    rw [Finset.image_image]; rfl
  rw [hval, himg, Finset.filter_image]
  have hfc : ((Finset.univ.image d).filter fun x =>
        valueScore o d (d i) < valueScore o d x) =
      (Finset.univ.image d).filter fun x => x < d i := by
    apply Finset.filter_congr
    intro x hx
    obtain ⟨k, _, rfl⟩ := Finset.mem_image.mp hx
    constructor
    · intro hlt
      rcases lt_trichotomy (d k) (d i) with h | h | h
      · exact h
      · rw [h] at hlt
        exact absurd hlt (lt_irrefl _)
      · exact absurd (valueScore_lt o d hn hdiv i k h) (not_lt.mpr (le_of_lt hlt))
    · intro hlt
      exact valueScore_lt o d hn hdiv k i hlt
  rw [hfc]
  have hinj : Set.InjOn (valueScore o d)
      ((Finset.univ.image d).filter fun x => x < d i) := by
    intro x hx y hy hxy
    obtain ⟨kx, _, hkx⟩ :=
      Finset.mem_image.mp (Finset.mem_filter.mp (Finset.mem_coe.mp hx)).1
    obtain ⟨ky, _, hky⟩ :=
      Finset.mem_image.mp (Finset.mem_filter.mp (Finset.mem_coe.mp hy)).1
    subst hkx
    subst hky
    by_contra hne
    rcases lt_or_gt_of_ne hne with h | h
    · exact absurd hxy (ne_of_gt (valueScore_lt o d hn hdiv kx ky h))
    · exact absurd hxy (ne_of_lt (valueScore_lt o d hn hdiv ky kx h))
  rw [Finset.card_image_of_injOn hinj]

theorem distBelow_mono (d d' : Fin n → ℚ) (i : Fin n)
    (hdec : d' i ≤ d i) (hoth : ∀ j, j ≠ i → d' j = d j) :
    distBelow d' i ≤ distBelow d i := by
  apply Finset.card_le_card
  intro v hv
  obtain ⟨hv1, hv2⟩ := Finset.mem_filter.mp hv
  obtain ⟨j, _, rfl⟩ := Finset.mem_image.mp hv1
  have hji : j ≠ i := by
    intro h
    rw [h] at hv2
    exact absurd hv2 (lt_irrefl _)
  rw [hoth j hji] at hv2 ⊢
  exact Finset.mem_filter.mpr
    ⟨Finset.mem_image_of_mem d (Finset.mem_univ j), lt_of_lt_of_le hv2 hdec⟩

theorem scoreQ_mono (o : ScoringOptions) (d d' : Fin n → ℚ) (i : Fin n)
    (hn : 2 ≤ n) (hdiv : ∀ dv, o.distance_divisor = some dv → 0 ≤ dv)
    (hbon : ∀ rbs, o.rank_bonuses = some rbs →
      ∀ r s : ℤ, 1 ≤ r → r ≤ s → bonusAt rbs s ≤ bonusAt rbs r)
    (hdec : d' i ≤ d i) (hoth : ∀ j, j ≠ i → d' j = d j) :
    scoreQ o d i ≤ scoreQ o d' i := by
  have hbase := combinedScoreQ_mono_self o d d' i hn hdiv hdec hoth
  have hpre : scoreQpre o d i ≤ scoreQpre o d' i := by
    unfold scoreQpre
    cases hrb : o.rank_bonuses with
    | none => exact hbase
    | some rbs =>
        show combinedScoreQ o d i + bonusAt rbs (denseRankDescQ (combinedScoreQ o d) i) ≤
          combinedScoreQ o d' i + bonusAt rbs (denseRankDescQ (combinedScoreQ o d') i)
        have hr : denseRankDescQ (combinedScoreQ o d') i ≤
            denseRankDescQ (combinedScoreQ o d) i := by
          rw [denseRankDescQ_eq_distBelow o d i hn hdiv,
            denseRankDescQ_eq_distBelow o d' i hn hdiv]
          have := distBelow_mono d d' i hdec hoth
          omega
        have h1 : (1 : ℤ) ≤ denseRankDescQ (combinedScoreQ o d') i := by
          rw [denseRankDescQ_eq_distBelow o d' i hn hdiv]
          omega
        have hbb := hbon rbs hrb _ _ h1 hr
        linarith
  unfold scoreQ
  cases hrt : o.round_to with
  | none => exact hpre
  | some k => exact roundToPlaces_mono k hpre

end Scoring

/-! ### Claim theorems -/

/-- C4: `get_distances(target, points, use_haversine=True)` computes the
*geodesic* distances element-wise and `use_haversine=False` the haversine
ones — the flag selects the metric opposite to its name — while the same
flag in `score_round` selects haversine when true; consequently the
comparison functions, whose `use_haversine` defaults to true, sort unscored
rounds by geodesic distance. -/
theorem C4_get_distances_metric_inverted (hav geod : Metric) (target : ℚ × ℚ)
    (points : List (ℚ × ℚ)) :
    get_distances hav geod target points true =
      points.map (fun p => geod target.1 target.2 p.2 p.1) ∧
    get_distances hav geod target points false =
      points.map (fun p => hav target.1 target.2 p.2 p.1) ∧
    score_round_distances hav geod target points true =
      points.map (fun p => hav target.1 target.2 p.2 p.1) ∧
    get_distances hav geod target points comparison_default_use_haversine =
      points.map (fun p => geod target.1 target.2 p.2 p.1) :=
  ⟨rfl, rfl, rfl, rfl⟩

/-- C2 (code evaluation at the failing input): for a single-submission round
(`n = 1`), `score_distances` does not raise, but the rank-beaten component
is numpy's `0.0 / 0 = NaN`, not 0, so the final score is NaN rather than
the distance component alone. -/
theorem C2_n1_score_is_nan :
    Scoring.playersBeatenScore (n := 1) ![1000000] 0 = PFloat.nan ∧
    Scoring.score_distances (n := 1) ![1000000] ![false] ![false]
      main_tpg_scoring 0 = PFloat.nan ∧
    Scoring.score_distances (n := 1) ![1000000] ![false] ![false]
      main_tpg_scoring 0 ≠
      .val (Scoring.distanceScore main_tpg_scoring 1000000) := by
  have h1 : Scoring.playersBeatenScore (n := 1) ![1000000] 0 = PFloat.nan := by
    with_unfolding_all decide
  have h2 : Scoring.score_distances (n := 1) ![1000000] ![false] ![false]
      main_tpg_scoring 0 = PFloat.nan := by
    with_unfolding_all decide
  exact ⟨h1, h2, by rw [h2]; intro h; cases h⟩

/-- `roundHalfEven` fixes integers. -/
theorem roundHalfEven_intCast (m : ℤ) : roundHalfEven (m : ℚ) = m := by
  unfold roundHalfEven
  rw [Int.floor_intCast]
  rw [if_pos (by norm_num)]

/-- `roundToPlaces` fixes a rational that is already exact at `k` places. -/
theorem roundToPlaces_fixed (k : ℤ) (q : ℚ) (m : ℤ)
    (h : q * (10 : ℚ) ^ k = (m : ℚ)) : roundToPlaces k q = q := by
  unfold roundToPlaces
  rw [h, roundHalfEven_intCast, ← h]
  have hpow : ((10 : ℚ) ^ k) ≠ 0 := by positivity
  field_simp

/-- Evaluation of `scoreQ` on the C8 counterexample round, before the
distance decrease. -/
theorem cex8_before : Scoring.scoreQ cexOpts8 ![1000, 2000] 1 = 14999 := by
  have hdiv : ∀ dv, cexOpts8.distance_divisor = some dv → (0 : ℚ) ≤ dv := by
    intro dv h
    simp [cexOpts8] at h
  have hrank := Scoring.denseRankDescQ_eq_distBelow cexOpts8 ![1000, 2000] 1
    (by omega) hdiv
  have hdb : Scoring.distBelow ![(1000 : ℚ), 2000] 1 = 1 := by decide
  have hrm : Scoring.rankMax ![(1000 : ℚ), 2000] 1 = 2 := by decide
  have hcomb : Scoring.combinedScoreQ cexOpts8 ![1000, 2000] 1 = 9999 := by
    unfold Scoring.combinedScoreQ Scoring.playersBeatenScoreQ Scoring.playersBeaten
      Scoring.distanceScore Scoring.distanceScoreRaw
    rw [hrm]
    norm_num [cexOpts8, max_def]
  have hpre : Scoring.scoreQpre cexOpts8 ![1000, 2000] 1 = 14999 := by
    unfold Scoring.scoreQpre
    show Scoring.combinedScoreQ cexOpts8 ![1000, 2000] 1 +
      Scoring.bonusAt [(2, 5000)] (Scoring.denseRankDescQ
        (Scoring.combinedScoreQ cexOpts8 ![1000, 2000]) 1) = 14999
    rw [hcomb, hrank, hdb]
    norm_num [Scoring.bonusAt]
  unfold Scoring.scoreQ
  show roundToPlaces 2 (Scoring.scoreQpre cexOpts8 ![1000, 2000] 1) = 14999
  rw [hpre]
  rw [roundToPlaces_fixed 2 14999 1499900 (by norm_num)]

/-- Evaluation of `scoreQ` on the C8 counterexample round, after the
distance decrease. -/
theorem cex8_after : Scoring.scoreQ cexOpts8 ![1000, 500] 1 = 49999 / 4 := by
  have hdiv : ∀ dv, cexOpts8.distance_divisor = some dv → (0 : ℚ) ≤ dv := by
    intro dv h
    simp [cexOpts8] at h
  have hrank := Scoring.denseRankDescQ_eq_distBelow cexOpts8 ![1000, 500] 1
    (by omega) hdiv
  have hdb : Scoring.distBelow ![(1000 : ℚ), 500] 1 = 0 := by decide
  have hrm : Scoring.rankMax ![(1000 : ℚ), 500] 1 = 1 := by decide
  have hcomb : Scoring.combinedScoreQ cexOpts8 ![1000, 500] 1 = 49999 / 4 := by
    unfold Scoring.combinedScoreQ Scoring.playersBeatenScoreQ Scoring.playersBeaten
      Scoring.distanceScore Scoring.distanceScoreRaw
    rw [hrm]
    norm_num [cexOpts8, max_def]
  have hpre : Scoring.scoreQpre cexOpts8 ![1000, 500] 1 = 49999 / 4 := by
    unfold Scoring.scoreQpre
    show Scoring.combinedScoreQ cexOpts8 ![1000, 500] 1 +
      Scoring.bonusAt [(2, 5000)] (Scoring.denseRankDescQ
        (Scoring.combinedScoreQ cexOpts8 ![1000, 500]) 1) = 49999 / 4
    rw [hcomb, hrank, hdb]
    norm_num [Scoring.bonusAt]
  unfold Scoring.scoreQ
  show roundToPlaces 2 (Scoring.scoreQpre cexOpts8 ![1000, 500] 1) = 49999 / 4
  rw [hpre]
  rw [roundToPlaces_fixed 2 (49999 / 4) 1249975 (by norm_num)]

/-- C8 (counterexample): with the rank-bonus table `{2: 5000}` — no 5K or
antipode override configured or triggered — decreasing submission 1's
distance from 2000 m to 500 m drops its score from 14999 to 12499.75,
refuting the claim as stated for arbitrary `ScoringOptions`. -/
theorem C8_counterexample :
    Scoring.score_distances ![1000, 2000] ![false, false] ![false, false]
      cexOpts8 1 = .val 14999 ∧
    Scoring.score_distances ![1000, 500] ![false, false] ![false, false]
      cexOpts8 1 = .val (49999 / 4) ∧
    (500 : ℚ) ≤ 2000 ∧ (49999 / 4 : ℚ) < 14999 := by
  refine ⟨?_, ?_, by norm_num, by norm_num⟩
  · rw [Scoring.score_distances_val cexOpts8 ![1000, 2000] ![false, false]
      ![false, false] 1 (by omega) (by decide) (by decide), cex8_before]
  · rw [Scoring.score_distances_val cexOpts8 ![1000, 500] ![false, false]
      ![false, false] 1 (by omega) (by decide) (by decide), cex8_after]

/-- C8 (amended): for options whose distance divisor (when set) is
non-negative and whose rank-bonus table (when set) is non-increasing in the
rank — i.e. a better rank never receives a smaller bonus, as in the main
game's `{1: 3000, 2: 2000, 3: 1000}` — and with no 5K or antipode-5K
override triggered for any submission, decreasing one submission's distance
while holding every other submission's distance fixed never decreases that
submission's score as computed by `score_distances` (for rounds with at
least two submissions; `n = 1` scores are NaN, see C2). -/
theorem C8_score_distances_monotone {n : ℕ} (o : ScoringOptions)
    (d d' : Fin n → ℚ) (is_5k is_antipode_5k : Fin n → Bool) (i : Fin n)
    (hn : 2 ≤ n)
    (h5 : ∀ j, is_5k j = false) (hA : ∀ j, is_antipode_5k j = false)
    (hdiv : ∀ dv, o.distance_divisor = some dv → 0 ≤ dv)
    (hbon : ∀ rbs, o.rank_bonuses = some rbs →
      ∀ r s : ℤ, 1 ≤ r → r ≤ s → Scoring.bonusAt rbs s ≤ Scoring.bonusAt rbs r)
    (hdec : d' i ≤ d i) (hoth : ∀ j, j ≠ i → d' j = d j) :
    ∃ a b : ℚ,
      Scoring.score_distances d is_5k is_antipode_5k o i = .val a ∧
      Scoring.score_distances d' is_5k is_antipode_5k o i = .val b ∧ a ≤ b :=
  ⟨Scoring.scoreQ o d i, Scoring.scoreQ o d' i,
    Scoring.score_distances_val o d _ _ i hn h5 hA,
    Scoring.score_distances_val o d' _ _ i hn h5 hA,
    Scoring.scoreQ_mono o d d' i hn hdiv hbon hdec hoth⟩

/-- C8 (witness): the amended theorem applied to a concrete two-player
round with no rank bonuses, decreasing player 1's distance 2000 m → 1500 m. -/
theorem C8_witness :
    ∃ a b : ℚ,
      Scoring.score_distances ![1000, 2000] ![false, false] ![false, false]
        witOpts8 1 = .val a ∧
      Scoring.score_distances ![1000, 1500] ![false, false] ![false, false]
        witOpts8 1 = .val b ∧ a ≤ b :=
  C8_score_distances_monotone witOpts8 ![1000, 2000] ![1000, 1500]
    ![false, false] ![false, false] 1 (by omega) (by decide) (by decide)
    (fun dv h => absurd h (by simp [witOpts8]))
    (fun rbs h => absurd h (by simp [witOpts8]))
    (by norm_num) (by with_unfolding_all decide)

/-- C1 (code evaluation at the failing input): `Simulation._choose_pic`
passes the keyword argument `reverse` to `get_best_pic`, which accepts only
the keyword `use_haversine`, so for the Closest (and Furthest) strategy
Python raises TypeError at the call site and `simulate_round` never builds
a submission or reaches `score_round` — for every metric pair and RNG
stream. -/
theorem C1_simulate_round_type_error (hav geod : Metric) (rng : ℕ → ℕ) :
    pythonKwargsBind get_best_pic_keyword_params choose_pic_call_keywords = false ∧
    sim1.simulate_round hav geod rng "R" 1 (0, 0) =
      .error "TypeError: get_best_pic() got an unexpected keyword argument reverse" := by
  exact ⟨rfl, rfl⟩

/-- C6 (code evaluation): the `Simulation` dataclass has no random-seed
field, and the Random strategy samples from the process-global RNG; with
the global draw modelled as an external input, the same bundle yields
different picks — and different simulated rounds — for different draws. -/
theorem C6_random_not_reproducible :
    simR.choose_pic mZero mZero 0 ps1 (0, 0) ≠
      simR.choose_pic mZero mZero 1 ps1 (0, 0) := by
  decide

/-- C9 (code evaluation at the failing input): `Round.name : str | None`
has no default, so pydantic treats it as required; `exclude_none`
serialisation omits a null name, and loading the saved JSON then fails —
`load(save(rounds)) ≠ rounds` for a round with a null name, while a round
with every optional field populated (and one with all optional fields null
except `name`) round-trips exactly. -/
theorem C9_null_name_roundtrip_fails :
    (load_rounds (rounds_to_json [badRound])).isOk = false ∧
    load_rounds (rounds_to_json [badRound]) ≠ .ok [badRound] ∧
    load_rounds (rounds_to_json [goodRound]) = .ok [goodRound] := by
  refine ⟨by decide, by decide, by with_unfolding_all decide⟩

/-! ### Supporting lemmas about scored, distance-sorted rounds -/

theorem filterMap_eq_map_of_isSome {α β : Type} (f : α → Option β) (d : β) :
    ∀ (l : List α), (∀ x ∈ l, (f x).isSome = true) →
      l.filterMap f = l.map fun x => (f x).getD d := by
  intro l
  induction l with
  | nil => intro _; rfl
  | cons x xs ih =>
      intro h
      have hx : (f x).isSome = true := h x (by simp)
      obtain ⟨v, hv⟩ := Option.isSome_iff_exists.mp hx
      rw [List.filterMap_cons, List.map_cons, hv]
      simpa using ih fun y hy => h y (by simp [hy])

/-- `sorted(submissions, key=attrgetter('distance'))` leaves a round whose
submissions are already in non-decreasing distance order unchanged. -/
theorem sortByDistance_sorted_id {subs : List Submission}
    (hd : ∀ s ∈ subs, s.distance.isSome = true)
    (hsorted : subs.Pairwise fun a b => a.distance.getD 0 ≤ b.distance.getD 0) :
    sortByDistance subs = subs := by
  unfold sortByDistance
  apply insertionSort_sorted_id
  apply List.Pairwise.imp_of_mem _ hsorted
  intro a b ha hb hle
  obtain ⟨va, hva⟩ := Option.isSome_iff_exists.mp (hd a ha)
  obtain ⟨vb, hvb⟩ := Option.isSome_iff_exists.mp (hd b hb)
  rw [hva, hvb] at hle ⊢
  simp only [Option.getD_some] at hle
  simp [optLt, not_lt.mpr hle]

theorem find_new_scored_eq (hav geod : Metric) (r : Round) (name : String)
    (np : ℚ × ℚ) (nd : ℚ) (desc : Option String) (uh : Bool)
    (hscored : r.is_scored = true)
    (hid : sortByDistance r.submissions = r.submissions) :
    find_new_next_highest_distance hav geod r name np (some nd) none desc uh =
      (if ((bisect (r.submissions.filterMap fun s => s.distance) nd : ℤ) + 1) = 1
       then .ok none
       else
         (pyGet r.submissions
             ((bisect (r.submissions.filterMap fun s => s.distance) nd : ℤ) + 1 - 2)).bind
           fun new_rival =>
             match new_rival.distance with
             | some rd => .ok (some
                 { round_name := r.name
                   target := r.target
                   round_num_players := r.submissions.length
                   player := name
                   player_pic := np
                   player_pic_description := desc
                   player_score := none
                   player_distance := nd
                   player_placing :=
                     (bisect (r.submissions.filterMap fun s => s.distance) nd : ℤ) + 1
                   rival := new_rival.name
                   rival_pic := new_rival.point
                   rival_pic_description := new_rival.description
                   rival_score := new_rival.score
                   rival_distance := rd })
             | none => .error "AssertionError: new_rival.distance is None") := by
  unfold find_new_next_highest_distance
  simp only [hscored, Bool.not_true, if_false, hid]
  rfl

theorem pyGet_nonneg {α : Type} (l : List α) (i : ℤ) (h0 : 0 ≤ i)
    (hl : i < l.length) :
    pyGet l i = .ok (l.get ⟨i.toNat, by omega⟩) := by
  unfold pyGet
  rw [dif_pos ⟨h0, hl⟩]

/-- C7: for a scored round whose submissions are sorted ascending by
distance, `find_new_next_highest_distance` ranks a hypothetical new
distance by binary search (`bisect`) against the round's distances in
submission order, returns None exactly when the hypothetical would rank 1
(in particular whenever the new distance is below every existing one), and
otherwise returns the submission one rank better — the last submission at
distance `≤` the new one — as the rival, with `player_placing` equal to
the bisection insertion point plus one. -/
theorem C7_find_new_next_highest (hav geod : Metric) (r : Round) (name : String)
    (np : ℚ × ℚ) (nd : ℚ) (desc : Option String) (uh : Bool)
    (hscored : r.is_scored = true)
    (hd : ∀ s ∈ r.submissions, s.distance.isSome = true)
    (hsorted : r.submissions.Pairwise fun a b =>
      a.distance.getD 0 ≤ b.distance.getD 0) :
    (find_new_next_highest_distance hav geod r name np (some nd) none desc uh =
        .ok none ↔
      bisect (r.submissions.filterMap fun s => s.distance) nd = 0) ∧
    ((∀ s ∈ r.submissions, nd < s.distance.getD 0) →
      find_new_next_highest_distance hav geod r name np (some nd) none desc uh =
        .ok none) ∧
    (bisect (r.submissions.filterMap fun s => s.distance) nd ≠ 0 →
      ∃ d : SubmissionDifference,
        find_new_next_highest_distance hav geod r name np (some nd) none desc uh =
          .ok (some d) ∧
        ∃ hlt : bisect (r.submissions.filterMap fun s => s.distance) nd - 1 <
            r.submissions.length,
          d.rival = (r.submissions.get
            ⟨bisect (r.submissions.filterMap fun s => s.distance) nd - 1, hlt⟩).name ∧
          d.rival_distance = (r.submissions.get
            ⟨bisect (r.submissions.filterMap fun s => s.distance) nd - 1,
              hlt⟩).distance.getD 0 ∧
          d.rival_score = (r.submissions.get
            ⟨bisect (r.submissions.filterMap fun s => s.distance) nd - 1, hlt⟩).score ∧
          d.player_placing =
            (bisect (r.submissions.filterMap fun s => s.distance) nd : ℤ) + 1 ∧
          d.player_distance = nd ∧
          (r.submissions.get
            ⟨bisect (r.submissions.filterMap fun s => s.distance) nd - 1,
              hlt⟩).distance.getD 0 ≤ nd ∧
          (∀ j : Fin r.submissions.length,
            bisect (r.submissions.filterMap fun s => s.distance) nd ≤ (j : ℕ) →
              nd < (r.submissions.get j).distance.getD 0)) := by
  have hmap : (r.submissions.filterMap fun s => s.distance) =
      r.submissions.map fun s => s.distance.getD 0 :=
    filterMap_eq_map_of_isSome _ 0 _ hd
  have hlen : (r.submissions.filterMap fun s => s.distance).length =
      r.submissions.length := by rw [hmap, List.length_map]
  have hsd : (r.submissions.filterMap fun s => s.distance).Pairwise (· ≤ ·) := by
    rw [hmap]
    exact List.pairwise_map.mpr hsorted
  have hsplit := bisect_split (r.submissions.filterMap fun s => s.distance) nd hsd
  have hzero := bisect_eq_zero_iff (r.submissions.filterMap fun s => s.distance) nd hsd
  have hid := sortByDistance_sorted_id hd hsorted
  have heq := find_new_scored_eq hav geod r name np nd desc uh hscored hid
  have hgetd : ∀ (j : ℕ) (hj : j < r.submissions.length),
      (r.submissions.filterMap fun s => s.distance).get ⟨j, by omega⟩ =
        (r.submissions.get ⟨j, hj⟩).distance.getD 0 := by
    intro j hj
    have hjq : j < (r.submissions.filterMap fun s => s.distance).length := by omega
    have h1 : (r.submissions.filterMap fun s => s.distance).get ⟨j, by omega⟩ =
        (r.submissions.filterMap fun s => s.distance)[j] := rfl
    rw [h1, List.getElem_of_eq hmap, List.getElem_map]
    rfl
  by_cases hk : bisect (r.submissions.filterMap fun s => s.distance) nd = 0
  · refine ⟨⟨fun _ => hk, fun _ => ?_⟩, fun _ => ?_, fun hne => absurd hk hne⟩
    · rw [heq, if_pos (by omega)]
    · rw [heq, if_pos (by omega)]
  · have hk1 : 1 ≤ bisect (r.submissions.filterMap fun s => s.distance) nd := by omega
    have hkle : bisect (r.submissions.filterMap fun s => s.distance) nd ≤
        r.submissions.length := by rw [← hlen]; exact hsplit.1
    have hlt : bisect (r.submissions.filterMap fun s => s.distance) nd - 1 <
        r.submissions.length := by omega
    have hpg : pyGet r.submissions
        ((bisect (r.submissions.filterMap fun s => s.distance) nd : ℤ) + 1 - 2) =
        .ok (r.submissions.get
          ⟨bisect (r.submissions.filterMap fun s => s.distance) nd - 1, hlt⟩) := by
      have h0 : (0 : ℤ) ≤
          (bisect (r.submissions.filterMap fun s => s.distance) nd : ℤ) + 1 - 2 := by
        omega
      have h1 : (bisect (r.submissions.filterMap fun s => s.distance) nd : ℤ) + 1 - 2 <
          (r.submissions.length : ℤ) := by
        omega
      rw [pyGet_nonneg r.submissions _ h0 h1]
      refine congrArg Except.ok (congrArg r.submissions.get (Fin.ext ?_))
      show ((bisect (r.submissions.filterMap fun s => s.distance) nd : ℤ) + 1 - 2).toNat =
        bisect (r.submissions.filterMap fun s => s.distance) nd - 1
      omega
    obtain ⟨v, hv⟩ := Option.isSome_iff_exists.mp
      (hd _ (List.get_mem r.submissions _ hlt))
    have hres : find_new_next_highest_distance hav geod r name np (some nd)
        none desc uh = .ok (some
          { round_name := r.name
            target := r.target
            round_num_players := r.submissions.length
            player := name
            player_pic := np
            player_pic_description := desc
            player_score := none
            player_distance := nd
            player_placing :=
              (bisect (r.submissions.filterMap fun s => s.distance) nd : ℤ) + 1
            rival := (r.submissions.get
              ⟨bisect (r.submissions.filterMap fun s => s.distance) nd - 1,
                hlt⟩).name
            rival_pic := (r.submissions.get
              ⟨bisect (r.submissions.filterMap fun s => s.distance) nd - 1,
                hlt⟩).point
            rival_pic_description := (r.submissions.get
              ⟨bisect (r.submissions.filterMap fun s => s.distance) nd - 1,
                hlt⟩).description
            rival_score := (r.submissions.get
              ⟨bisect (r.submissions.filterMap fun s => s.distance) nd - 1,
                hlt⟩).score
            rival_distance := v }) := by
      rw [heq, if_neg (by omega), hpg]
      simp only [Except.bind]
      rw [hv]
    have hltf : bisect (r.submissions.filterMap fun s => s.distance) nd - 1 <
        (r.submissions.filterMap fun s => s.distance).length := by omega
    have hrivle : (r.submissions.get
        ⟨bisect (r.submissions.filterMap fun s => s.distance) nd - 1,
          hlt⟩).distance.getD 0 ≤ nd := by
      rw [← hgetd _ hlt]
      exact hsplit.2.1 ⟨_, hltf⟩ (by simp; omega)
    have hgt : ∀ j : Fin r.submissions.length,
        bisect (r.submissions.filterMap fun s => s.distance) nd ≤ (j : ℕ) →
          nd < (r.submissions.get j).distance.getD 0 := by
      intro j hj
      have hjf : (j : ℕ) < (r.submissions.filterMap fun s => s.distance).length := by
        have := j.isLt
        omega
      rw [← hgetd _ j.isLt]
      exact hsplit.2.2 ⟨(j : ℕ), hjf⟩ (by simpa using hj)
    refine ⟨⟨fun habs => ?_, fun h0 => absurd h0 hk⟩, fun hall => ?_, fun _ => ?_⟩
    · rw [hres] at habs
      cases habs
    · exfalso
      apply hk
      apply hzero.mpr
      intro i
      have hi : (i : ℕ) < r.submissions.length := by
        have := i.isLt
        omega
      rw [show (r.submissions.filterMap fun s => s.distance).get i =
          (r.submissions.filterMap fun s => s.distance).get ⟨(i : ℕ), by omega⟩
        from congrArg _ (Fin.ext rfl)]
      rw [hgetd _ hi]
      exact hall _ (List.get_mem r.submissions _ hi)
    · refine ⟨_, hres, hlt, rfl, ?_, rfl, rfl, rfl, hrivle, hgt⟩
      show v = (r.submissions.get
        ⟨bisect (r.submissions.filterMap fun s => s.distance) nd - 1,
          hlt⟩).distance.getD 0
      rw [hv]
      rfl

/-- C7 witness: a concrete scored round where the hypothetical distance 10
beats both existing distances (40 and 100), so the comparison returns None. -/
theorem C7_witness :
    round3.is_scored = true ∧
    find_new_next_highest_distance mZero mZero round3 "C" (0, 0) (some 10)
      none none false = .ok none := by
  have h := C7_find_new_next_highest mZero mZero round3 "C" (0, 0) 10 none false
    (by decide) (by decide) (by decide)
  exact ⟨by decide, h.2.1 (by decide)⟩

/-! ### Adjacent-rank comparison (claim C3) -/

theorem find_next_scored_eq (hav geod : Metric) (r : Round) (sub : Submission)
    (uh : Bool) (hscored : r.is_scored = true)
    (hid : sortByDistance r.submissions = r.submissions) :
    find_next_highest_placing hav geod r sub false uh =
      findNextHighestBuild r r.submissions sub := by
  unfold find_next_highest_placing
  simp only [hscored, Bool.not_true, if_false, hid]
  rfl

theorem nodup_of_strict_distances {subs : List Submission}
    (hsorted : subs.Pairwise fun a b => a.distance.getD 0 < b.distance.getD 0) :
    subs.Nodup := by
  apply hsorted.imp
  intro a b h hab
  rw [hab] at h
  exact lt_irrefl _ h

/-- C3 (corrected): in a scored round sorted strictly ascending by distance
with ranks `1, 2, ...` in order, the submission at rank `i+1` (position `i`)
gets the submission at rank `i` as rival; `score_diff` is rival minus
player, but `distance_diff` is the PLAYER's distance minus the rival's
(not rival minus player as claimed), and it is nonnegative; the rank-1
submission gets None. -/
theorem C3_next_highest_adjacent (hav geod : Metric) (r : Round) (uh : Bool)
    (hscored : r.is_scored = true)
    (hd : ∀ s ∈ r.submissions, s.distance.isSome = true)
    (hsorted : r.submissions.Pairwise fun a b =>
      a.distance.getD 0 < b.distance.getD 0)
    (hrank : ∀ i : Fin r.submissions.length,
      (r.submissions.get i).rank = some ((i : ℕ) + 1 : ℤ)) :
    ∀ i : Fin r.submissions.length,
      ((i : ℕ) = 0 →
        find_next_highest_placing hav geod r (r.submissions.get i) false uh =
          .ok none) ∧
      (0 < (i : ℕ) →
        ∃ d : SubmissionDifference,
          find_next_highest_placing hav geod r (r.submissions.get i) false uh =
            .ok (some d) ∧
          ∃ hpred : (i : ℕ) - 1 < r.submissions.length,
            d.rival = (r.submissions.get ⟨(i : ℕ) - 1, hpred⟩).name ∧
            (r.submissions.get ⟨(i : ℕ) - 1, hpred⟩).rank = some ((i : ℕ) : ℤ) ∧
            d.player_placing = ((i : ℕ) : ℤ) + 1 ∧
            d.score_diff = some ((r.submissions.get ⟨(i : ℕ) - 1, hpred⟩).score.getD 0
              - (r.submissions.get i).score.getD 0) ∧
            d.distance_diff = (r.submissions.get i).distance.getD 0
              - (r.submissions.get ⟨(i : ℕ) - 1, hpred⟩).distance.getD 0 ∧
            0 ≤ d.distance_diff) := by
  intro i
  have hnd : r.submissions.Nodup := nodup_of_strict_distances hsorted
  have hle : r.submissions.Pairwise fun a b =>
      a.distance.getD 0 ≤ b.distance.getD 0 := hsorted.imp fun h => le_of_lt h
  have hid := sortByDistance_sorted_id hd hle
  have heq := find_next_scored_eq hav geod r (r.submissions.get i) uh hscored hid
  have hmem : r.submissions.get i ∈ r.submissions :=
    List.get_mem r.submissions (i : ℕ) i.2
  have hidx : r.submissions.indexOf (r.submissions.get i) = (i : ℕ) := by
    simpa using List.indexOf_getElem hnd (i : ℕ) i.2
  constructor
  · intro h0
    rw [heq]
    unfold findNextHighestBuild
    rw [if_pos hmem]
    simp only [hidx]
    rw [if_pos h0]
  · intro hpos
    have hne : ¬ ((i : ℕ) = 0) := by omega
    have hpred : (i : ℕ) - 1 < r.submissions.length := by
      have := i.2
      omega
    have hmem2 : r.submissions.get ⟨(i : ℕ) - 1, hpred⟩ ∈ r.submissions :=
      List.get_mem r.submissions ((i : ℕ) - 1) hpred
    obtain ⟨pd, hpd⟩ := Option.isSome_iff_exists.mp (hd _ hmem)
    obtain ⟨rd, hrd⟩ := Option.isSome_iff_exists.mp (hd _ hmem2)
    have hsc : ∀ s ∈ r.submissions, s.score.isSome = true := by
      intro s hs
      have hall := hscored
      unfold Round.is_scored at hall
      exact List.all_eq_true.mp hall s hs
    obtain ⟨ps, hps⟩ := Option.isSome_iff_exists.mp (hsc _ hmem)
    obtain ⟨rs, hrs⟩ := Option.isSome_iff_exists.mp (hsc _ hmem2)
    have hgetD : r.submissions.getD ((i : ℕ) - 1) (r.submissions.get i) =
        r.submissions.get ⟨(i : ℕ) - 1, hpred⟩ :=
      List.getD_eq_getElem r.submissions _ hpred
    have hres : find_next_highest_placing hav geod r (r.submissions.get i) false uh =
        .ok (some
          { round_name := r.name
            target := r.target
            round_num_players := r.submissions.length
            player := (r.submissions.get i).name
            player_pic := (r.submissions.get i).point
            player_pic_description := (r.submissions.get i).description
            player_score := (r.submissions.get i).score
            player_distance := pd
            player_placing := ((i : ℕ) : ℤ) + 1
            rival := (r.submissions.get ⟨(i : ℕ) - 1, hpred⟩).name
            rival_pic := (r.submissions.get ⟨(i : ℕ) - 1, hpred⟩).point
            rival_pic_description :=
              (r.submissions.get ⟨(i : ℕ) - 1, hpred⟩).description
            rival_score := (r.submissions.get ⟨(i : ℕ) - 1, hpred⟩).score
            rival_distance := rd }) := by
      rw [heq]
      unfold findNextHighestBuild
      rw [if_pos hmem]
      simp only [hidx]
      rw [if_neg hne, hgetD, hpd, hrd]
    have hlt2 : rd < pd := by
      have hpair := List.pairwise_iff_get.mp hsorted
        ⟨(i : ℕ) - 1, hpred⟩ i
        (by rw [Fin.lt_def]; exact Nat.sub_lt hpos Nat.one_pos)
      rw [hpd, hrd] at hpair
      simpa using hpair
    refine ⟨_, hres, hpred, rfl, ?_, rfl, ?_, ?_, ?_⟩
    · rw [hrank ⟨(i : ℕ) - 1, hpred⟩]
      congr 1
      show (((i : ℕ) - 1 : ℕ) : ℤ) + 1 = ((i : ℕ) : ℤ)
      omega
    · show (match (r.submissions.get i).score,
          (r.submissions.get ⟨(i : ℕ) - 1, hpred⟩).score with
        | some p, some q => some (q - p)
        | _, _ => none) = _
      rw [hps, hrs]
      simp [hps, hrs]
    · show pd - rd = _
      rw [hpd, hrd]
      rfl
    · show (0 : ℚ) ≤ pd - rd
      linarith

/-- C3 counterexample: in the concrete scored round (rival at distance 40,
player at distance 100) the returned `distance_diff` is 60 — the player's
distance minus the rival's — while the rival's value minus the player's,
as the claim states it, would be -60. -/
theorem C3_distance_diff_counterexample :
    (find_next_highest_placing mZero mZero round3 subB3 false false).map
        (Option.map fun d =>
          (d.distance_diff, d.rival_distance - d.player_distance)) =
      .ok (some (60, -60)) ∧ (60 : ℚ) ≠ -60 := by
  constructor
  · with_unfolding_all decide
  · with_unfolding_all decide

/-- C3 witness: the amended theorem applied to the concrete round at
position 1 (rank 2) yields a difference with nonnegative `distance_diff`. -/
theorem C3_witness :
    ∃ d : SubmissionDifference,
      find_next_highest_placing mZero mZero round3
          (round3.submissions.get ⟨1, by decide⟩) false false = .ok (some d) ∧
        0 ≤ d.distance_diff := by
  have h := C3_next_highest_adjacent mZero mZero round3 false (by decide)
    (by decide) (by decide) (by decide) ⟨1, by decide⟩
  obtain ⟨d, hres, hpred, h1, h2, h3, h4, h5, h6⟩ := h.2 (by decide)
  exact ⟨d, hres, h6⟩

/-! ### Leaderboard error behaviour (claim C10) -/

theorem except_bind_ok {α β : Type} (a : α) (f : α → Except String β) :
    (Except.ok a >>= f) = f a := rfl

theorem except_bind_error {α β : Type} (e : String) (f : α → Except String β) :
    ((Except.error e : Except String α) >>= f) = .error e := rfl

theorem processSubmission_ok_of_scored (nm : String) (st : LeaderboardState)
    (s : Submission) (hs : s.score.isSome = true) (hd : s.distance.isSome = true)
    (hr : ∀ k : ℤ, s.rank = some k → 0 ≤ k) :
    ∃ st', processSubmission nm st s = .ok st' := by
  obtain ⟨sc, hsc⟩ := Option.isSome_iff_exists.mp hs
  obtain ⟨di, hdi⟩ := Option.isSome_iff_exists.mp hd
  unfold processSubmission
  rw [hsc, hdi]
  cases hrk : s.rank with
  | none => exact ⟨_, rfl⟩
  | some r =>
      by_cases hc : r ≠ 0 ∧ r ≤ 3
      · have h0 : 0 ≤ r := hr r hrk
        have hne := hc.1
        have h3 := hc.2
        have h1 : 1 ≤ r := by omega
        interval_cases r
        · exact ⟨_, rfl⟩
        · exact ⟨_, rfl⟩
        · exact ⟨_, rfl⟩
      · show ∃ st', (if r ≠ 0 ∧ r ≤ 3 then _ else _) = Except.ok st'
        rw [if_neg hc]
        exact ⟨_, rfl⟩

theorem processSubmission_error_of_unscored (nm : String) (st : LeaderboardState)
    (s : Submission)
    (h : ¬ (s.score.isSome = true ∧ s.distance.isSome = true)) :
    processSubmission nm st s =
      .error "ValueError: Submissions must be scored to make leaderboards" := by
  unfold processSubmission
  cases hsc : s.score with
  | none => cases hdi : s.distance <;> rfl
  | some sc =>
      cases hdi : s.distance with
      | none => rfl
      | some di =>
          exfalso
          exact h ⟨by rw [hsc]; rfl, by rw [hdi]; rfl⟩

theorem foldl_subs_ok_of_scored (nm : String) (subs : List Submission)
    (hr : ∀ s ∈ subs, ∀ k : ℤ, s.rank = some k → 0 ≤ k)
    (h : ∀ s ∈ subs, s.score.isSome = true ∧ s.distance.isSome = true) :
    ∀ st : LeaderboardState,
      ∃ st', subs.foldlM (processSubmission nm) st = .ok st' := by
  induction subs with
  | nil => exact fun st => ⟨st, rfl⟩
  | cons x xs ih =>
      intro st
      obtain ⟨hx, hxs⟩ := List.forall_mem_cons.mp h
      obtain ⟨hrx, hrxs⟩ := List.forall_mem_cons.mp hr
      obtain ⟨st1, hst1⟩ := processSubmission_ok_of_scored nm st x hx.1 hx.2 hrx
      obtain ⟨st2, hst2⟩ := ih hrxs hxs st1
      refine ⟨st2, ?_⟩
      rw [List.foldlM_cons, hst1, except_bind_ok, hst2]

theorem foldl_subs_error_of_unscored (nm : String) (subs : List Submission)
    (hr : ∀ s ∈ subs, ∀ k : ℤ, s.rank = some k → 0 ≤ k)
    (h : ¬ ∀ s ∈ subs, s.score.isSome = true ∧ s.distance.isSome = true) :
    ∀ st : LeaderboardState,
      subs.foldlM (processSubmission nm) st =
        .error "ValueError: Submissions must be scored to make leaderboards" := by
  induction subs with
  | nil => exact fun st => absurd (by simp) h
  | cons x xs ih =>
      intro st
      obtain ⟨hrx, hrxs⟩ := List.forall_mem_cons.mp hr
      rw [List.forall_mem_cons] at h
      by_cases hx : x.score.isSome = true ∧ x.distance.isSome = true
      · have hxs : ¬ ∀ s ∈ xs, s.score.isSome = true ∧ s.distance.isSome = true :=
          fun hall => h ⟨hx, hall⟩
        obtain ⟨st1, hst1⟩ := processSubmission_ok_of_scored nm st x hx.1 hx.2 hrx
        rw [List.foldlM_cons, hst1, except_bind_ok, ih hrxs hxs st1]
      · rw [List.foldlM_cons, processSubmission_error_of_unscored nm st x hx,
          except_bind_error]

theorem foldl_rounds_ok_of_scored (rounds : List Round)
    (hr : ∀ r ∈ rounds, ∀ s ∈ r.submissions, ∀ k : ℤ, s.rank = some k → 0 ≤ k)
    (h : ∀ r ∈ rounds, ∀ s ∈ r.submissions,
      s.score.isSome = true ∧ s.distance.isSome = true) :
    ∀ st : LeaderboardState,
      ∃ st', rounds.foldlM processRound st = .ok st' := by
  induction rounds with
  | nil => exact fun st => ⟨st, rfl⟩
  | cons x xs ih =>
      intro st
      obtain ⟨hx, hxs⟩ := List.forall_mem_cons.mp h
      obtain ⟨hrx, hrxs⟩ := List.forall_mem_cons.mp hr
      obtain ⟨st1, hst1⟩ :=
        foldl_subs_ok_of_scored (pyDisplayName x) x.submissions hrx hx st
      obtain ⟨st2, hst2⟩ := ih hrxs hxs st1
      refine ⟨st2, ?_⟩
      rw [List.foldlM_cons]
      show processRound st x >>= _ = _
      rw [show processRound st x = .ok st1 from hst1, except_bind_ok, hst2]

theorem foldl_rounds_error_of_unscored (rounds : List Round)
    (hr : ∀ r ∈ rounds, ∀ s ∈ r.submissions, ∀ k : ℤ, s.rank = some k → 0 ≤ k)
    (h : ¬ ∀ r ∈ rounds, ∀ s ∈ r.submissions,
      s.score.isSome = true ∧ s.distance.isSome = true) :
    ∀ st : LeaderboardState,
      rounds.foldlM processRound st =
        .error "ValueError: Submissions must be scored to make leaderboards" := by
  induction rounds with
  | nil => exact fun st => absurd (by simp) h
  | cons x xs ih =>
      intro st
      obtain ⟨hrx, hrxs⟩ := List.forall_mem_cons.mp hr
      rw [List.forall_mem_cons] at h
      by_cases hx : ∀ s ∈ x.submissions, s.score.isSome = true ∧ s.distance.isSome = true
      · have hxs : ¬ ∀ r ∈ xs, ∀ s ∈ r.submissions,
            s.score.isSome = true ∧ s.distance.isSome = true :=
          fun hall => h ⟨hx, hall⟩
        obtain ⟨st1, hst1⟩ :=
          foldl_subs_ok_of_scored (pyDisplayName x) x.submissions hrx hx st
        rw [List.foldlM_cons]
        show processRound st x >>= _ = _
        rw [show processRound st x = .ok st1 from hst1, except_bind_ok, ih hrxs hxs st1]
      · rw [List.foldlM_cons]
        show processRound st x >>= _ = _
        rw [show processRound st x =
            .error "ValueError: Submissions must be scored to make leaderboards" from
          foldl_subs_error_of_unscored (pyDisplayName x) x.submissions hrx hx st,
          except_bind_error]

/-- C10 (corrected): provided no submission carries a negative rank,
`make_leaderboards` returns the three leaderboards iff every submission of
every round has a score and a distance, and otherwise fails with
"Submissions must be scored to make leaderboards". (Without the rank
proviso the iff fails: a fully scored submission whose rank is negative
makes `Medal(4 - rank)` raise instead.) -/
theorem C10_scored_iff_ok (rounds : List Round)
    (hr : ∀ r ∈ rounds, ∀ s ∈ r.submissions, ∀ k : ℤ, s.rank = some k → 0 ≤ k) :
    ((∃ lbs, make_leaderboards rounds = .ok lbs) ↔
      ∀ r ∈ rounds, ∀ s ∈ r.submissions,
        s.score.isSome = true ∧ s.distance.isSome = true) ∧
    (¬ (∀ r ∈ rounds, ∀ s ∈ r.submissions,
        s.score.isSome = true ∧ s.distance.isSome = true) →
      make_leaderboards rounds =
        .error "ValueError: Submissions must be scored to make leaderboards") := by
  have herr : ¬ (∀ r ∈ rounds, ∀ s ∈ r.submissions,
      s.score.isSome = true ∧ s.distance.isSome = true) →
      make_leaderboards rounds =
        .error "ValueError: Submissions must be scored to make leaderboards" := by
    intro h
    unfold make_leaderboards
    rw [foldl_rounds_error_of_unscored rounds hr h {}]
    rfl
  refine ⟨⟨fun hok => ?_, fun hall => ?_⟩, herr⟩
  · by_contra h
    obtain ⟨lbs, hlbs⟩ := hok
    rw [herr h] at hlbs
    cases hlbs
  · obtain ⟨st, hst⟩ := foldl_rounds_ok_of_scored rounds hr hall {}
    have hres : make_leaderboards rounds = .ok (make_points_leaderboard st.points,
        make_distance_leaderboard st.distances, count_medals st.medals) := by
      unfold make_leaderboards
      rw [hst]
      rfl
    exact ⟨_, hres⟩

/-- C10 counterexample: a round whose single submission is fully scored but
has rank -1 makes `make_leaderboards` raise a (different) hard error,
`Medal(4 - rank)` being out of range — so "raises iff some submission is
unscored" fails in the only-if direction. -/
theorem C10_counterexample :
    ((r10bad.submissions.all fun s => s.score.isSome && s.distance.isSome) = true) ∧
    make_leaderboards [r10bad] = .error "ValueError: not a valid Medal" := by
  constructor
  · decide
  · with_unfolding_all decide

/-- C10 witness: two fully scored rounds with valid ranks, on which the
leaderboards are produced without error. -/
theorem C10_witness :
    (∃ lbs, make_leaderboards [r5a, r5b] = .ok lbs) ∧
    (∀ r ∈ [r5a, r5b], ∀ s ∈ r.submissions,
      s.score.isSome = true ∧ s.distance.isSome = true) := by
  have h := C10_scored_iff_ok [r5a, r5b] (by decide)
  exact ⟨h.1.mpr (by decide), by decide⟩

/-! ### Points-leaderboard structure (claim C5) -/

theorem dfind_eq_none_of_not_mem_keys {α : Type} (d : List (String × α))
    (k : String) (h : k ∉ d.map Prod.fst) : dfind d k = none := by
  induction d with
  | nil => rfl
  | cons x xs ih =>
      obtain ⟨k', v⟩ := x
      simp only [List.map_cons, List.mem_cons, not_or] at h
      simp only [dfind]
      rw [if_neg fun hh => h.1 hh.symm]
      exact ih h.2

theorem dset_fresh {α : Type} (d : List (String × α)) (k : String) (v : α)
    (h : dfind d k = none) : dset d k v = d ++ [(k, v)] := by
  induction d with
  | nil => rfl
  | cons x xs ih =>
      obtain ⟨k', w⟩ := x
      simp only [dfind] at h
      simp only [dset, List.cons_append]
      by_cases hk : k' = k
      · rw [if_pos hk] at h
        cases h
      · rw [if_neg hk] at h
        rw [if_neg hk, ih h]

theorem dfind_append_last {α : Type} (base : List (String × α)) (nm : String)
    (v : α) (h : dfind base nm = none) :
    dfind (base ++ [(nm, v)]) nm = some v := by
  induction base with
  | nil => simp [dfind]
  | cons x xs ih =>
      obtain ⟨k', w⟩ := x
      simp only [dfind] at h
      simp only [List.cons_append, dfind]
      by_cases hk : k' = nm
      · rw [if_pos hk] at h
        cases h
      · rw [if_neg hk] at h
        rw [if_neg hk]
        exact ih h

theorem dfind_append_ne {α : Type} (base : List (String × α)) (nm k : String)
    (v : α) (h : dfind base k = none) (hne : k ≠ nm) :
    dfind (base ++ [(nm, v)]) k = none := by
  induction base with
  | nil =>
      simp only [List.nil_append, dfind]
      rw [if_neg (Ne.symm hne)]
  | cons x xs ih =>
      obtain ⟨k', w⟩ := x
      simp only [dfind] at h
      simp only [List.cons_append, dfind]
      by_cases hk : k' = k
      · rw [if_pos hk] at h
        cases h
      · rw [if_neg hk] at h
        rw [if_neg hk]
        exact ih h

theorem dset_append_existing {α : Type} (base : List (String × α)) (nm : String)
    (old v : α) (h : dfind base nm = none) :
    dset (base ++ [(nm, old)]) nm v = base ++ [(nm, v)] := by
  induction base with
  | nil => simp [dset]
  | cons x xs ih =>
      obtain ⟨k', w⟩ := x
      simp only [dfind] at h
      simp only [List.cons_append, dset, List.append_eq]
      by_cases hk : k' = nm
      · rw [if_pos hk] at h
        cases h
      · rw [if_neg hk] at h
        rw [if_neg hk, ih h]

theorem dfind_map_pairs (f : Submission → ℚ) (p : String) :
    ∀ subs : List Submission,
      dfind (subs.map fun s => (s.name, f s)) p =
        (subs.find? fun s => s.name = p).map f := by
  intro subs
  induction subs with
  | nil => rfl
  | cons x xs ih =>
      simp only [List.map_cons, dfind]
      by_cases h : x.name = p
      · rw [if_pos h, List.find?_cons_of_pos _ (by simpa using h)]
        rfl
      · rw [if_neg h, List.find?_cons_of_neg _ (by simpa using h), ih]

theorem processSubmission_points (nm : String) (st : LeaderboardState)
    (s : Submission) (hs : s.score.isSome = true) (hd : s.distance.isSome = true)
    (hr : ∀ k : ℤ, s.rank = some k → 0 ≤ k) :
    ∃ st', processSubmission nm st s = .ok st' ∧
      st'.points = dset st.points nm
        (dset (dgetD st.points nm []) s.name (s.score.getD 0)) := by
  obtain ⟨sc, hsc⟩ := Option.isSome_iff_exists.mp hs
  obtain ⟨di, hdi⟩ := Option.isSome_iff_exists.mp hd
  unfold processSubmission
  rw [hsc, hdi]
  cases hrk : s.rank with
  | none => exact ⟨_, rfl, rfl⟩
  | some r =>
      by_cases hc : r ≠ 0 ∧ r ≤ 3
      · have h0 : 0 ≤ r := hr r hrk
        have hne := hc.1
        have h3 := hc.2
        have h1 : 1 ≤ r := by omega
        interval_cases r
        · exact ⟨_, rfl, rfl⟩
        · exact ⟨_, rfl, rfl⟩
        · exact ⟨_, rfl, rfl⟩
      · show ∃ st', ((if r ≠ 0 ∧ r ≤ 3 then _ else _) = Except.ok st' ∧
          st'.points = _)
        rw [if_neg hc]
        exact ⟨_, rfl, rfl⟩

theorem foldl_points_inner (nm : String) :
    ∀ (subs : List Submission) (st : LeaderboardState)
      (base : List (String × List (String × ℚ))) (acc : List (String × ℚ)),
      (∀ s ∈ subs, s.score.isSome = true ∧ s.distance.isSome = true) →
      (∀ s ∈ subs, ∀ k : ℤ, s.rank = some k → 0 ≤ k) →
      (∀ s ∈ subs, s.name ∉ acc.map Prod.fst) →
      (subs.map Submission.name).Nodup →
      st.points = base ++ [(nm, acc)] →
      dfind base nm = none →
      ∃ st', subs.foldlM (processSubmission nm) st = .ok st' ∧
        st'.points =
          base ++ [(nm, acc ++ subs.map fun s => (s.name, s.score.getD 0))] := by
  intro subs
  induction subs with
  | nil =>
      intro st base acc _ _ _ _ hpts _
      exact ⟨st, rfl, by simpa using hpts⟩
  | cons x xs ih =>
      intro st base acc hsc hr hacc hnd hpts hbase
      obtain ⟨hscx, hscxs⟩ := List.forall_mem_cons.mp hsc
      obtain ⟨hrx, hrxs⟩ := List.forall_mem_cons.mp hr
      obtain ⟨haccx, haccxs⟩ := List.forall_mem_cons.mp hacc
      rw [List.map_cons, List.nodup_cons] at hnd
      obtain ⟨hxnot, hndxs⟩ := hnd
      obtain ⟨st1, hst1, hpts1⟩ := processSubmission_points nm st x hscx.1 hscx.2 hrx
      have hget : dgetD st.points nm [] = acc := by
        rw [hpts]
        unfold dgetD
        rw [dfind_append_last base nm acc hbase]
        rfl
      have hsetin : dset acc x.name (x.score.getD 0) =
          acc ++ [(x.name, x.score.getD 0)] :=
        dset_fresh acc x.name _ (dfind_eq_none_of_not_mem_keys acc x.name haccx)
      have hpts1' : st1.points =
          base ++ [(nm, acc ++ [(x.name, x.score.getD 0)])] := by
        rw [hpts1, hget, hsetin, hpts, dset_append_existing base nm acc _ hbase]
      have haccxs' : ∀ s ∈ xs,
          s.name ∉ (acc ++ [(x.name, x.score.getD 0)]).map Prod.fst := by
        intro s hs
        rw [List.map_append]
        simp only [List.mem_append, List.map_cons, List.map_nil,
          List.mem_singleton, not_or]
        refine ⟨haccxs s hs, fun heq => hxnot ?_⟩
        rw [← heq]
        exact List.mem_map_of_mem Submission.name hs
      obtain ⟨st2, hst2, hpts2⟩ :=
        ih st1 base (acc ++ [(x.name, x.score.getD 0)]) hscxs hrxs haccxs' hndxs
          hpts1' hbase
      refine ⟨st2, ?_, ?_⟩
      · rw [List.foldlM_cons, hst1, except_bind_ok, hst2]
      · rw [hpts2]
        simp [List.append_assoc]

theorem foldl_points_rounds :
    ∀ (rounds : List Round) (st : LeaderboardState)
      (base : List (String × List (String × ℚ))),
      (∀ r ∈ rounds, ∀ s ∈ r.submissions,
        s.score.isSome = true ∧ s.distance.isSome = true) →
      (∀ r ∈ rounds, ∀ s ∈ r.submissions, ∀ k : ℤ, s.rank = some k → 0 ≤ k) →
      (∀ r ∈ rounds, r.submissions ≠ []) →
      (∀ r ∈ rounds, (r.submissions.map Submission.name).Nodup) →
      (rounds.map pyDisplayName).Nodup →
      (∀ r ∈ rounds, dfind base (pyDisplayName r) = none) →
      st.points = base →
      ∃ st', rounds.foldlM processRound st = .ok st' ∧
        st'.points = base ++ rounds.map fun r =>
          (pyDisplayName r, r.submissions.map fun s => (s.name, s.score.getD 0)) := by
  intro rounds
  induction rounds with
  | nil =>
      intro st base _ _ _ _ _ _ hpts
      exact ⟨st, rfl, by simpa using hpts⟩
  | cons r rs ih =>
      intro st base hsc hr hne hsn hdn hfresh hpts
      obtain ⟨hscr, hscrs⟩ := List.forall_mem_cons.mp hsc
      obtain ⟨hrr, hrrs⟩ := List.forall_mem_cons.mp hr
      obtain ⟨hner, hners⟩ := List.forall_mem_cons.mp hne
      obtain ⟨hsnr, hsnrs⟩ := List.forall_mem_cons.mp hsn
      rw [List.map_cons, List.nodup_cons] at hdn
      obtain ⟨hdnr, hdnrs⟩ := hdn
      obtain ⟨hfreshr, hfreshrs⟩ := List.forall_mem_cons.mp hfresh
      obtain ⟨x, xs, hsubs⟩ : ∃ x xs, r.submissions = x :: xs := by
        cases hsubs : r.submissions with
        | nil => exact absurd hsubs hner
        | cons x xs => exact ⟨x, xs, rfl⟩
      have hmemx : x ∈ r.submissions := by rw [hsubs]; exact List.mem_cons_self x xs
      obtain ⟨st1, hst1, hpts1⟩ := processSubmission_points (pyDisplayName r) st x
        (hscr x hmemx).1 (hscr x hmemx).2 (hrr x hmemx)
      have hget : dgetD st.points (pyDisplayName r) [] = [] := by
        rw [hpts]
        unfold dgetD
        rw [hfreshr]
        rfl
      have hpts1' : st1.points =
          base ++ [(pyDisplayName r, [(x.name, x.score.getD 0)])] := by
        rw [hpts1, hget, hpts, dset_fresh base _ _ hfreshr]
        rfl
      have hsnr' := hsnr
      rw [hsubs, List.map_cons, List.nodup_cons] at hsnr'
      obtain ⟨hxnot, hndxs⟩ := hsnr'
      have haccxs : ∀ s ∈ xs, s.name ∉ ([(x.name, x.score.getD 0)]).map
          (Prod.fst (α := String) (β := ℚ)) := by
        intro s hs
        simp only [List.map_cons, List.map_nil, List.mem_singleton]
        intro heq
        apply hxnot
        rw [← heq]
        exact List.mem_map_of_mem Submission.name hs
      have hsub_mem : ∀ s ∈ xs, s ∈ r.submissions := by
        intro s hs
        rw [hsubs]
        exact List.mem_cons_of_mem x hs
      obtain ⟨st2, hst2, hpts2⟩ := foldl_points_inner (pyDisplayName r) xs st1 base
        [(x.name, x.score.getD 0)]
        (fun s hs => hscr s (hsub_mem s hs)) (fun s hs => hrr s (hsub_mem s hs))
        haccxs hndxs hpts1' hfreshr
      have hpr : processRound st r = .ok st2 := by
        unfold processRound
        rw [hsubs, List.foldlM_cons, hst1, except_bind_ok, hst2]
      have hpts2' : st2.points = base ++
          [(pyDisplayName r, r.submissions.map fun s => (s.name, s.score.getD 0))] := by
        rw [hpts2, hsubs]
        simp
      have hfreshrs' : ∀ r' ∈ rs,
          dfind (base ++ [(pyDisplayName r,
            r.submissions.map fun s => (s.name, s.score.getD 0))])
            (pyDisplayName r') = none := by
        intro r' hr'
        apply dfind_append_ne _ _ _ _ (hfreshrs r' hr')
        intro heq
        apply hdnr
        rw [← heq]
        exact List.mem_map_of_mem pyDisplayName hr'
      obtain ⟨st3, hst3, hpts3⟩ := ih st2 _ hscrs hrrs hners hsnrs hdnrs hfreshrs'
        hpts2'
      refine ⟨st3, ?_, ?_⟩
      · rw [List.foldlM_cons]
        show processRound st r >>= _ = _
        rw [hpr, except_bind_ok, hst3]
      · rw [hpts3]
        simp [List.append_assoc]

theorem addTotals_columns (d : List (String × List (String × ℚ)))
    (players : List String) (asc : Bool) :
    (addTotals d players asc).columns = "Total" :: "Average" :: d.map Prod.fst :=
  rfl

theorem addTotals_row_mem (d : List (String × List (String × ℚ)))
    (players : List String) (asc : Bool) (row : LBRow)
    (h : row ∈ (addTotals d players asc).rows) :
    ∃ p ∈ players,
      row = { player := p
              total := rowTotal (d.map fun c => dfind c.2 p)
              average := rowTotal (d.map fun c => dfind c.2 p) / ((d.length : ℚ) + 1)
              cells := d.map fun c => dfind c.2 p } := by
  simp only [addTotals] at h
  have h' := mem_insertionSort.mp h
  obtain ⟨p, hp, hrow⟩ := List.mem_map.mp h'
  refine ⟨p, hp, ?_⟩
  rw [← hrow]
  simp [List.length_map, rowTotal]

theorem addTotals_rows_sorted_desc (d : List (String × List (String × ℚ)))
    (players : List String) :
    (addTotals d players false).rows.Pairwise fun a b => b.total ≤ a.total := by
  simp only [addTotals]
  apply insertionSort_pairwise
  · intro a b hab
    simp only [if_false, Bool.false_eq_true] at hab
    exact le_of_not_lt (of_decide_eq_false hab)
  · intro a b hab
    simp only [if_false, Bool.false_eq_true] at hab
    exact le_of_lt (of_decide_eq_true hab)
  · intro a b c h1 h2
    exact le_trans h2 h1

/-- C5 (corrected): for scored rounds (with nonnegative ranks, nonempty
submission lists, distinct display names and per-round distinct player
names) the points leaderboard is the player-by-round score matrix: its
columns are Total, Average, then one column per round in order; each row's
cell for a round is that player's score there (None when absent), its
Total is the sum of the cells that are present, and its Average is Total
divided by (number of rounds + 1) — not the mean over rounds played — and
there is no Stdev column; rows are sorted by Total descending. -/
theorem C5_points_leaderboard (rounds : List Round)
    (hsc : ∀ r ∈ rounds, ∀ s ∈ r.submissions,
      s.score.isSome = true ∧ s.distance.isSome = true)
    (hr : ∀ r ∈ rounds, ∀ s ∈ r.submissions, ∀ k : ℤ, s.rank = some k → 0 ≤ k)
    (hne : ∀ r ∈ rounds, r.submissions ≠ [])
    (hsn : ∀ r ∈ rounds, (r.submissions.map Submission.name).Nodup)
    (hdn : (rounds.map pyDisplayName).Nodup) :
    ∃ plb dlb mlb, make_leaderboards rounds = .ok (plb, dlb, mlb) ∧
      plb.columns = "Total" :: "Average" :: rounds.map pyDisplayName ∧
      (∀ row ∈ plb.rows,
        row.cells = rounds.map (fun r =>
          (r.submissions.find? fun s => s.name = row.player).map
            fun s => s.score.getD 0) ∧
        row.total = (row.cells.filterMap id).sum ∧
        row.average = row.total / ((rounds.length : ℚ) + 1)) ∧
      plb.rows.Pairwise fun a b => b.total ≤ a.total := by
  obtain ⟨st, hst, hpts⟩ := foldl_points_rounds rounds {} [] hsc hr hne hsn hdn
    (fun r _ => rfl) rfl
  have hpts' : st.points = rounds.map fun r =>
      (pyDisplayName r, r.submissions.map fun s => (s.name, s.score.getD 0)) := by
    simpa using hpts
  have hres : make_leaderboards rounds = .ok (make_points_leaderboard st.points,
      make_distance_leaderboard st.distances, count_medals st.medals) := by
    unfold make_leaderboards
    rw [hst]
    rfl
  refine ⟨_, _, _, hres, ?_, ?_, ?_⟩
  · rw [hpts']
    unfold make_points_leaderboard
    rw [addTotals_columns]
    simp [List.map_map, Function.comp]
  · intro row hrow
    rw [hpts'] at hrow
    unfold make_points_leaderboard at hrow
    obtain ⟨p, hp, hrw⟩ := addTotals_row_mem _ _ _ _ hrow
    refine ⟨?_, ?_, ?_⟩
    · rw [hrw]
      simp only [List.map_map]
      apply List.map_congr_left
      intro r _
      show dfind (r.submissions.map fun s => (s.name, s.score.getD 0)) p = _
      rw [dfind_map_pairs]
    · rw [hrw]
      rfl
    · rw [hrw]
      simp [List.length_map]
  · rw [hpts']
    unfold make_points_leaderboard
    exact addTotals_rows_sorted_desc _ _

/-- C5 counterexample: over two rounds in which player A scores 10 and 20,
the points leaderboard's Average for A is 30 / (2 + 1) = 10, not the mean
15 over the rounds played, and the columns are exactly Total, Average,
R1, R2 — there is no Stdev column. -/
theorem C5_counterexample :
    (make_leaderboards [r5a, r5b]).map
        (fun lbs => (lbs.1.columns, lbs.1.rows.map fun row =>
          (row.player, row.total, row.average))) =
      .ok (["Total", "Average", "R1", "R2"], [("A", 30, 10)]) ∧
    "Stdev" ∉ ["Total", "Average", "R1", "R2"] ∧
    (10 : ℚ) ≠ (10 + 20) / 2 := by
  refine ⟨?_, ?_, ?_⟩
  · with_unfolding_all decide
  · decide
  · with_unfolding_all decide

/-- C5 witness: the corrected theorem applied to the two concrete rounds
yields the leaderboards with the expected columns and sorted rows. -/
theorem C5_witness :
    ∃ plb dlb mlb, make_leaderboards [r5a, r5b] = .ok (plb, dlb, mlb) ∧
      plb.columns = "Total" :: "Average" :: [r5a, r5b].map pyDisplayName ∧
      plb.rows.Pairwise fun a b => b.total ≤ a.total := by
  obtain ⟨plb, dlb, mlb, hok, hcols, _, hsort⟩ :=
    C5_points_leaderboard [r5a, r5b] (by decide) (by decide) (by decide)
      (by decide) (by decide)
  exact ⟨plb, dlb, mlb, hok, hcols, hsort⟩
